import Mathlib

/-!
# Verification of the classroom scheduling engine (`scheduler.py` and companions)

This file gives a shallow embedding, in Lean 4, of the scheduling engine of the
repository (`SchedulingOptimizer` in `src/scheduler.py`, the year-sliced driver in
`src/scheduler_large_dataset.py`, and the program-sliced driver in
`src/scheduler_program_sequential.py`), together with theorems settling the
specification claims about it.

Conventions of the embedding:
* session ids, pattern ids and component ids equal the position of the record in
  the corresponding list, exactly as `_generate_class_sections` assigns them
  (`session_id`, `pattern_id`, `component_id` are incremented in step with the
  appends);
* Python dict-of-lists grouping loops are embedded as `List.filter` over the key,
  which is extensionally what the loops build;
* PuLP boolean variables are embedded as `Bool`-valued assignment functions; a
  linear sum of binaries is embedded as a `countP`;
* the external MIP/CP solver is embedded, where a claim is about control flow
  around it, as an oracle function returning `Option` (success / failure).
-/

namespace Scheduler

/-! ## Time grid (`_generate_time_slots`) -/

/-- The five scheduling days, in order (`self.days`). -/
def days : List String := ["M", "T", "W", "TH", "F"]

/-- The sixteen 30-minute (start, end) time ranges of one day: 8:00-12:00 and
13:00-17:00 (`times` in `_generate_time_slots`). -/
def dayTimes : List (String × String) :=
  [("08:00", "08:30"), ("08:30", "09:00"),
   ("09:00", "09:30"), ("09:30", "10:00"),
   ("10:00", "10:30"), ("10:30", "11:00"),
   ("11:00", "11:30"), ("11:30", "12:00"),
   ("13:00", "13:30"), ("13:30", "14:00"),
   ("14:00", "14:30"), ("14:30", "15:00"),
   ("15:00", "15:30"), ("15:30", "16:00"),
   ("16:00", "16:30"), ("16:30", "17:00")]

/-- One 30-minute slot of the grid; the slot id is its position in `timeSlots`. -/
structure TimeSlot where
  day : String
  start : String
  endTime : String
  deriving Repr, DecidableEq, Inhabited

/-- The ordered global slot list: for each day, the sixteen day ranges
(`_generate_time_slots`). -/
def timeSlots : List TimeSlot :=
  days.flatMap fun d => dayTimes.map fun t => ⟨d, t.1, t.2⟩

/-- `self.time_slots_per_day = len(self.time_slots) // len(self.days)`. -/
def timeSlotsPerDay : Nat := timeSlots.length / days.length

/-- Lexicographic (code-point) comparison of char lists; this is exactly the
string comparison Python applies to the `"HH:MM"` literals of the grid. -/
def charListLt : List Char → List Char → Bool
  | [], [] => false
  | [], _ :: _ => true
  | _ :: _, [] => false
  | a :: as, b :: bs =>
    if a < b then true else if b < a then false else charListLt as bs

/-- Python's `<` on strings (lexicographic by code point). -/
def strLt (a b : String) : Bool := charListLt a.data b.data

/-- Python's `str.startswith`, computed on the underlying character lists
(`String.startsWith` itself does not reduce in the kernel). -/
def strStartsWith (s p : String) : Bool := p.data.isPrefixOf s.data

/-- The characters after the first `':'` of a string. -/
def afterColon : List Char → List Char
  | [] => []
  | c :: cs => if c = ':' then cs else afterColon cs

/-- Decimal value of a digit string. -/
def natOfDigits (cs : List Char) : Nat :=
  cs.foldl (fun n c => 10 * n + (c.toNat - 48)) 0

/-- Minute field of a `"HH:MM"` string (`int(start_time.split(':')[1])`). -/
def minuteOf (t : String) : Nat := natOfDigits (afterColon t.data)

/-! ## Pattern catalog (`_get_session_configs`) -/

/-- One meeting-pattern option, as produced by `_get_session_configs`:
`{'type': …, 'duration': …, 'pattern': …, 'meetings': …}`.  `duration` is in
30-minute slots. -/
structure Config where
  type : String
  duration : Nat
  pattern : String
  meetings : Nat
  deriving Repr, DecidableEq, Inhabited

/-- A course as the catalog sees it: its code and weekly lecture/lab hours. -/
structure Course where
  code : String
  lecHours : ℚ
  labHours : ℚ
  deriving Repr, DecidableEq

/-- Embedding of `_get_session_configs`: the list of valid meeting patterns of a
course, in emission order. -/
def getSessionConfigs (c : Course) : List Config :=
  if c.code = "IT 128" ∨ c.code = "IS 404" then
    [⟨"lecture", 2, "2_days", 2⟩, ⟨"lecture", 4, "single_day", 1⟩]
  else if strStartsWith c.code "PathFit" then
    [⟨"lecture", 4, "single_day", 1⟩]
  else
    (if c.lecHours > 0 then
      (if c.labHours = 0 then
        [⟨"lecture", 3, "2_days", 2⟩, ⟨"lecture", 2, "MWF", 3⟩]
      else
        [⟨"lecture", 2, "2_days", 2⟩, ⟨"lecture", 4, "single_day", 1⟩])
    else []) ++
    (if c.labHours > 0 then
      [⟨"lab", 3, "2_days", 2⟩, ⟨"lab", 2, "MWF", 3⟩]
    else [])

/-- The distinct session types appearing in a config list, in first-appearance
order (the key order of the `configs_by_type` dict in
`_generate_class_sections`). -/
def configTypes (cfgs : List Config) : List String :=
  cfgs.foldl (fun acc cfg => if cfg.type ∈ acc then acc else acc ++ [cfg.type]) []

/-- Embedding of the per-course part of `_generate_class_sections`: the course's
configs grouped by session type, one group per component to be created; a course
whose config list is empty is skipped (`if not configs: continue`) and yields no
components. -/
def componentsOfCourse (c : Course) : List (String × List Config) :=
  let cfgs := getSessionConfigs c
  (configTypes cfgs).map fun ty => (ty, cfgs.filter fun cfg => cfg.type = ty)

/-- Reference pattern catalog, written from the specification's words
(claim C3): special-cased codes short-circuit with their fixed 2-weekly-hour
lecture pattern(s); a pure-lecture course gets exactly the two lecture patterns
1.5h×2-days and 1h×3-MWF; a course with lab hours gets the lab patterns
1.5h×2-days and 1h×3-MWF, preceded, when it also has lecture hours, by the
lecture patterns 1h×2-days and 2h×1-day; anything else yields no patterns. -/
def refSessionConfigs (c : Course) : List Config :=
  if c.code = "IT 128" ∨ c.code = "IS 404" then
    [⟨"lecture", 2, "2_days", 2⟩, ⟨"lecture", 4, "single_day", 1⟩]
  else if strStartsWith c.code "PathFit" then
    [⟨"lecture", 4, "single_day", 1⟩]
  else if c.lecHours > 0 ∧ c.labHours = 0 then
    [⟨"lecture", 3, "2_days", 2⟩, ⟨"lecture", 2, "MWF", 3⟩]
  else if c.labHours > 0 then
    (if c.lecHours > 0 then
      [⟨"lecture", 2, "2_days", 2⟩, ⟨"lecture", 4, "single_day", 1⟩]
    else []) ++
    [⟨"lab", 3, "2_days", 2⟩, ⟨"lab", 2, "MWF", 3⟩]
  else []

set_option maxHeartbeats 800000 in
/-- C3: `_get_session_configs` coincides with the specification's reference
catalog on every course with nonnegative hour fields, and a (non-special-cased)
course with zero lecture and zero lab hours yields no patterns and produces no
components in `_generate_class_sections`. -/
theorem getSessionConfigs_eq_ref (c : Course) (hlab : 0 ≤ c.labHours) :
    getSessionConfigs c = refSessionConfigs c ∧
      (c.lecHours = 0 → c.labHours = 0 →
        getSessionConfigs c = [] ∨
          (c.code = "IT 128" ∨ c.code = "IS 404" ∨ strStartsWith c.code "PathFit")) ∧
      (getSessionConfigs c = [] → componentsOfCourse c = []) := by
  refine ⟨?_, ?_, ?_⟩
  · by_cases hsp : c.code = "IT 128" ∨ c.code = "IS 404"
    · simp [getSessionConfigs, refSessionConfigs, hsp]
    · by_cases hpf : strStartsWith c.code "PathFit"
      · simp [getSessionConfigs, refSessionConfigs, hsp, hpf]
      · by_cases hlec0 : c.lecHours > 0
        · by_cases hlab0 : c.labHours = 0
          · simp [getSessionConfigs, refSessionConfigs, hsp, hpf, hlec0, hlab0]
          · have hlabpos : c.labHours > 0 := lt_of_le_of_ne hlab (Ne.symm hlab0)
            simp [getSessionConfigs, refSessionConfigs, hsp, hpf, hlec0, hlab0,
              hlabpos]
        · have hlab0 : c.labHours = 0 ∨ c.labHours > 0 :=
            (lt_or_eq_of_le hlab).symm.imp Eq.symm id
          rcases hlab0 with hlab0 | hlabpos
          · simp [getSessionConfigs, refSessionConfigs, hsp, hpf, hlec0, hlab0]
          · simp [getSessionConfigs, refSessionConfigs, hsp, hpf, hlec0, hlabpos,
              (ne_of_gt hlabpos)]
  · intro h0lec h0lab
    by_cases hsp : c.code = "IT 128" ∨ c.code = "IS 404"
    · right; exact hsp.imp id Or.inl
    · by_cases hpf : strStartsWith c.code "PathFit"
      · right; right; right; exact hpf
      · left
        simp [getSessionConfigs, hsp, hpf, h0lec, h0lab]
  · intro h
    simp [componentsOfCourse, configTypes, h]

/-- A sample pure-lecture course used to instantiate hypotheses of theorems. -/
def gecCourse : Course := ⟨"GEC 101", 3, 0⟩

/-- Witness for `getSessionConfigs_eq_ref` at a concrete pure-lecture course. -/
theorem getSessionConfigs_eq_ref_witness :
    (0 : ℚ) ≤ gecCourse.labHours ∧
      (getSessionConfigs gecCourse = refSessionConfigs gecCourse ∧
        (gecCourse.lecHours = 0 → gecCourse.labHours = 0 →
          getSessionConfigs gecCourse = [] ∨
            (gecCourse.code = "IT 128" ∨ gecCourse.code = "IS 404" ∨
              strStartsWith gecCourse.code "PathFit")) ∧
        (getSessionConfigs gecCourse = [] → componentsOfCourse gecCourse = [])) :=
  ⟨by norm_num [gecCourse], getSessionConfigs_eq_ref gecCourse (by norm_num [gecCourse])⟩

/-! ## Valid start slots (`_get_valid_start_slots_for_pattern`) -/

/-- Days permitted for a day pattern (`valid_days` in the source). -/
def validDaysFor (dayPattern : String) : List String :=
  if dayPattern = "single_day" ∨ dayPattern = "flexible" then days
  else if dayPattern = "MWF" then ["M", "W", "F"]
  else if dayPattern = "2_days" then days
  else if dayPattern = "MW" then ["M", "W"]
  else days

/-- Embedding of `_get_valid_start_slots_for_pattern`, which depends on the
session only through its `day_pattern` and `duration_slots`: the global slot
indices at which such a session may start.  The three leading tests are the
source's variable-count heuristic; then the day-pattern check, the same-day fit
check, and the lunch-break check, in the source's order. -/
def validStartSlots (dayPattern : String) (duration : Nat) : List Nat :=
  let validDays := validDaysFor dayPattern
  (List.range timeSlots.length).filter fun k =>
    let slot := timeSlots.getD k default
    let startTime := slot.start
    let minute := minuteOf startTime
    if duration = 2 ∧ minute ≠ 0 then false
    else if duration = 3 ∧ startTime ∉ ["08:00", "09:30", "13:00", "14:30"] then false
    else if 3 < duration ∧ minute ≠ 0 then false
    else if slot.day ∉ validDays then false
    else
      let endIdx := k + duration - 1
      if timeSlots.length ≤ endIdx ∨ (timeSlots.getD endIdx default).day ≠ slot.day then
        false
      else
        let endTime := (timeSlots.getD endIdx default).endTime
        !(strLt startTime "12:00" && strLt "12:00" endTime)

/-- The specification's characterisation of a valid start (claim C4): the slot
exists; its day is permitted by the day rule (MWF patterns on Mon/Wed/Fri, the
other rules on any weekday); the covered slots all lie within the same day; the
covered interval does not cross the 12:00-13:00 midday gap; and the start time
is canonical for the duration (on the hour for 1-hour and for longer than
1.5-hour sessions, one of the four canonical times for 1.5-hour sessions). -/
def specValidStart (dayPattern : String) (duration k : Nat) : Prop :=
  k < timeSlots.length ∧
  ((timeSlots.getD k default).day ∈
    (if dayPattern = "MWF" then ["M", "W", "F"] else days)) ∧
  k + duration - 1 < timeSlots.length ∧
  (∀ o < duration, (timeSlots.getD (k + o) default).day = (timeSlots.getD k default).day) ∧
  ¬ (strLt (timeSlots.getD k default).start "12:00" = true ∧
      strLt "12:00" (timeSlots.getD (k + duration - 1) default).endTime = true) ∧
  (duration = 2 → minuteOf (timeSlots.getD k default).start = 0) ∧
  (duration = 3 →
    (timeSlots.getD k default).start ∈ ["08:00", "09:30", "13:00", "14:30"]) ∧
  (3 < duration → minuteOf (timeSlots.getD k default).start = 0)

/-- Every pattern the catalog emits has one of four (day-rule, duration)
shapes. -/
theorem config_shape (c : Course) (cfg : Config) (hcfg : cfg ∈ getSessionConfigs c) :
    (cfg.pattern = "2_days" ∧ cfg.duration = 3) ∨
      (cfg.pattern = "MWF" ∧ cfg.duration = 2) ∨
      (cfg.pattern = "2_days" ∧ cfg.duration = 2) ∨
      (cfg.pattern = "single_day" ∧ cfg.duration = 4) := by
  by_cases hsp : c.code = "IT 128" ∨ c.code = "IS 404"
  · simp [getSessionConfigs, hsp] at hcfg
    rcases hcfg with rfl | rfl <;> simp
  · by_cases hpf : strStartsWith c.code "PathFit"
    · simp [getSessionConfigs, hsp, hpf] at hcfg
      subst hcfg; simp
    · by_cases hlec0 : c.lecHours > 0
      · by_cases hlab0 : c.labHours = 0
        · simp [getSessionConfigs, hsp, hpf, hlec0, hlab0] at hcfg
          rcases hcfg with rfl | rfl <;> simp
        · by_cases hlabpos : c.labHours > 0
          · simp [getSessionConfigs, hsp, hpf, hlec0, hlab0, hlabpos] at hcfg
            rcases hcfg with rfl | rfl | rfl | rfl <;> simp
          · simp [getSessionConfigs, hsp, hpf, hlec0, hlab0, hlabpos] at hcfg
            rcases hcfg with rfl | rfl <;> simp
      · by_cases hlabpos : c.labHours > 0
        · simp [getSessionConfigs, hsp, hpf, hlec0, hlabpos] at hcfg
          rcases hcfg with rfl | rfl <;> simp
        · simp [getSessionConfigs, hsp, hpf, hlec0, hlabpos] at hcfg

/-- `specValidStart` is decidable, so witnesses can be evaluated. -/
instance (p : String) (d k : Nat) : Decidable (specValidStart p d k) := by
  unfold specValidStart; exact inferInstance

/-- The grid has 80 slots (5 days of 16). -/
theorem timeSlots_length : timeSlots.length = 80 := by decide

/-- A valid start index is an index of the grid. -/
theorem mem_validStartSlots_lt (p : String) (d k : Nat)
    (h : k ∈ validStartSlots p d) : k < timeSlots.length := by
  simp only [validStartSlots] at h
  exact List.mem_range.mp (List.mem_filter.mp h).1

set_option maxRecDepth 10000 in
set_option maxHeartbeats 8000000 in
/-- C4: for every session shape the catalog can emit, a slot index is a valid
start in `_get_valid_start_slots_for_pattern` exactly when the specification's
three conditions hold: permitted day, same-day fit without crossing the midday
gap, and canonical start time for the duration. -/
theorem validStartSlots_iff_spec (c : Course) (cfg : Config)
    (hcfg : cfg ∈ getSessionConfigs c) (k : Nat) :
    k ∈ validStartSlots cfg.pattern cfg.duration ↔
      specValidStart cfg.pattern cfg.duration k := by
  by_cases hk : k < timeSlots.length
  · have h80 : k < 80 := timeSlots_length ▸ hk
    rcases config_shape c cfg hcfg with ⟨hp, hd⟩ | ⟨hp, hd⟩ | ⟨hp, hd⟩ | ⟨hp, hd⟩ <;>
      rw [hp, hd]
    · exact (by decide :
        ∀ j, j < 80 → (j ∈ validStartSlots "2_days" 3 ↔ specValidStart "2_days" 3 j)) k h80
    · exact (by decide :
        ∀ j, j < 80 → (j ∈ validStartSlots "MWF" 2 ↔ specValidStart "MWF" 2 j)) k h80
    · exact (by decide :
        ∀ j, j < 80 → (j ∈ validStartSlots "2_days" 2 ↔ specValidStart "2_days" 2 j)) k h80
    · exact (by decide :
        ∀ j, j < 80 → (j ∈ validStartSlots "single_day" 4 ↔
          specValidStart "single_day" 4 j)) k h80
  · constructor
    · intro h; exact absurd (mem_validStartSlots_lt _ _ _ h) hk
    · intro h; exact absurd h.1 hk

/-- Witness for `validStartSlots_iff_spec`: the 1.5h-twice pattern of a concrete
pure-lecture course, at slot 0 (Monday 08:00). -/
theorem validStartSlots_iff_spec_witness :
    (⟨"lecture", 3, "2_days", 2⟩ : Config) ∈ getSessionConfigs gecCourse ∧
      (0 ∈ validStartSlots "2_days" 3 ↔ specValidStart "2_days" 3 0) :=
  ⟨by decide, validStartSlots_iff_spec gecCourse ⟨"lecture", 3, "2_days", 2⟩ (by decide) 0⟩

/-! ## Dominated-pattern removal (`_remove_dominated_patterns`) -/

/-- The metrics `_remove_dominated_patterns` computes for one pattern of a
component: session count, total duration, and `_calculate_pattern_flexibility`'s
score (total valid-start options over the pattern's sessions, divided by the
session count; every session of a pattern shares its day rule and duration, so
each contributes `(validStartSlots …).length` options). -/
structure PatternMetrics where
  numSessions : Nat
  totalDuration : Nat
  flexibilityScore : ℚ
  deriving Repr, DecidableEq

/-- Metrics of one catalog pattern. -/
def metricsOf (cfg : Config) : PatternMetrics where
  numSessions := cfg.meetings
  totalDuration := cfg.meetings * cfg.duration
  flexibilityScore :=
    if cfg.meetings = 0 then 0
    else (cfg.meetings * (validStartSlots cfg.pattern cfg.duration).length : ℚ) / cfg.meetings

/-- Embedding of the dominated-pattern search of `_remove_dominated_patterns`,
restricted to one component's pattern list: position `i` is dominated when some
other position `j` has strictly fewer sessions, no larger total duration, and
no smaller flexibility score. -/
def dominatedConfigs (cfgs : List Config) : List Nat :=
  if cfgs.length ≤ 1 then []
  else
    (List.range cfgs.length).filter fun i =>
      (List.range cfgs.length).any fun j =>
        decide (j ≠ i) &&
        decide ((metricsOf (cfgs.getD j default)).numSessions <
          (metricsOf (cfgs.getD i default)).numSessions) &&
        decide ((metricsOf (cfgs.getD j default)).totalDuration ≤
          (metricsOf (cfgs.getD i default)).totalDuration) &&
        decide ((metricsOf (cfgs.getD i default)).flexibilityScore ≤
          (metricsOf (cfgs.getD j default)).flexibilityScore)

/-- The component's pattern list after `_remove_dominated_patterns` deletes the
dominated patterns (and, with them, their variables). -/
def removeDominated (cfgs : List Config) : List Config :=
  ((List.range cfgs.length).filter fun i => i ∉ dominatedConfigs cfgs).map
    fun i => cfgs.getD i default

/-- Every component the expander can create carries one of four pattern
lists. -/
theorem component_shape (c : Course) (ty : String) (cfgs : List Config)
    (h : (ty, cfgs) ∈ componentsOfCourse c) :
    cfgs = [⟨"lecture", 2, "2_days", 2⟩, ⟨"lecture", 4, "single_day", 1⟩] ∨
      cfgs = [⟨"lecture", 4, "single_day", 1⟩] ∨
      cfgs = [⟨"lecture", 3, "2_days", 2⟩, ⟨"lecture", 2, "MWF", 3⟩] ∨
      cfgs = [⟨"lab", 3, "2_days", 2⟩, ⟨"lab", 2, "MWF", 3⟩] := by
  by_cases hsp : c.code = "IT 128" ∨ c.code = "IS 404"
  · simp [componentsOfCourse, configTypes, getSessionConfigs, hsp] at h
    simp [h]
  · by_cases hpf : strStartsWith c.code "PathFit"
    · simp [componentsOfCourse, configTypes, getSessionConfigs, hsp, hpf] at h
      simp [h]
    · by_cases hlec0 : c.lecHours > 0
      · by_cases hlab0 : c.labHours = 0
        · simp [componentsOfCourse, configTypes, getSessionConfigs,
            hsp, hpf, hlec0, hlab0] at h
          simp [h]
        · by_cases hlabpos : c.labHours > 0
          · simp [componentsOfCourse, configTypes, getSessionConfigs,
              hsp, hpf, hlec0, hlab0, hlabpos] at h
            rcases h with ⟨-, h⟩ | ⟨-, h⟩ <;> simp [h]
          · simp [componentsOfCourse, configTypes, getSessionConfigs,
              hsp, hpf, hlec0, hlab0, hlabpos] at h
            simp [h]
      · by_cases hlabpos : c.labHours > 0
        · simp [componentsOfCourse, configTypes, getSessionConfigs,
            hsp, hpf, hlec0, hlabpos] at h
          simp [h]
        · simp [componentsOfCourse, configTypes, getSessionConfigs,
            hsp, hpf, hlec0, hlabpos] at h

/-- 1.5-hour sessions on any weekday have 20 candidate starts. -/
theorem length_validStartSlots_2d3 : (validStartSlots "2_days" 3).length = 20 := by decide

/-- 1-hour MWF sessions have 24 candidate starts. -/
theorem length_validStartSlots_MWF2 : (validStartSlots "MWF" 2).length = 24 := by decide

/-- 1-hour sessions on any weekday have 40 candidate starts. -/
theorem length_validStartSlots_2d2 : (validStartSlots "2_days" 2).length = 40 := by decide

/-- 2-hour single-day sessions have 30 candidate starts. -/
theorem length_validStartSlots_sd4 : (validStartSlots "single_day" 4).length = 30 := by decide

/-- No dominance among the two with-lab lecture patterns (1 session of the
2h×1 pattern has fewer sessions and equal duration, but flexibility 30 < 40). -/
theorem dominatedConfigs_withLabLecture :
    dominatedConfigs [⟨"lecture", 2, "2_days", 2⟩, ⟨"lecture", 4, "single_day", 1⟩] = [] := by
  norm_num [dominatedConfigs, metricsOf, List.range_succ,
    length_validStartSlots_2d2, length_validStartSlots_sd4]

/-- A single pattern is never dominated. -/
theorem dominatedConfigs_pathFit :
    dominatedConfigs [⟨"lecture", 4, "single_day", 1⟩] = [] := by
  norm_num [dominatedConfigs]

/-- No dominance among the two pure-lecture patterns (the 1.5h×2 pattern has
fewer sessions and equal duration, but flexibility 20 < 24). -/
theorem dominatedConfigs_pureLecture :
    dominatedConfigs [⟨"lecture", 3, "2_days", 2⟩, ⟨"lecture", 2, "MWF", 3⟩] = [] := by
  norm_num [dominatedConfigs, metricsOf, List.range_succ,
    length_validStartSlots_2d3, length_validStartSlots_MWF2]

/-- No dominance among the two lab patterns (same metrics as pure lecture). -/
theorem dominatedConfigs_lab :
    dominatedConfigs [⟨"lab", 3, "2_days", 2⟩, ⟨"lab", 2, "MWF", 3⟩] = [] := by
  norm_num [dominatedConfigs, metricsOf, List.range_succ,
    length_validStartSlots_2d3, length_validStartSlots_MWF2]

/-- When nothing is dominated in a two-pattern component, removal keeps both. -/
theorem removeDominated_of_two (a b : Config) (h : dominatedConfigs [a, b] = []) :
    removeDominated [a, b] = [a, b] := by
  simp [removeDominated, h, List.range_succ, List.getD]

/-- When nothing is dominated in a one-pattern component, removal keeps it. -/
theorem removeDominated_of_one (a : Config) (h : dominatedConfigs [a] = []) :
    removeDominated [a] = [a] := by
  simp [removeDominated, h, List.range_succ, List.getD]

/-- C6: on every component the pipeline can produce, the dominated-pattern
search finds nothing, so `_remove_dominated_patterns` deletes no pattern and,
a fortiori, the model and its optimal objective value are unchanged by the
pruning pass. -/
theorem removeDominated_noop (c : Course) (ty : String) (cfgs : List Config)
    (hmem : (ty, cfgs) ∈ componentsOfCourse c) :
    dominatedConfigs cfgs = [] ∧ removeDominated cfgs = cfgs ∧
      ∀ (optimalValue : List Config → ℚ),
        optimalValue (removeDominated cfgs) = optimalValue cfgs := by
  have h2 : dominatedConfigs cfgs = [] ∧ removeDominated cfgs = cfgs := by
    rcases component_shape c ty cfgs hmem with h | h | h | h <;> rw [h]
    · exact ⟨dominatedConfigs_withLabLecture,
        removeDominated_of_two _ _ dominatedConfigs_withLabLecture⟩
    · exact ⟨dominatedConfigs_pathFit,
        removeDominated_of_one _ dominatedConfigs_pathFit⟩
    · exact ⟨dominatedConfigs_pureLecture,
        removeDominated_of_two _ _ dominatedConfigs_pureLecture⟩
    · exact ⟨dominatedConfigs_lab,
        removeDominated_of_two _ _ dominatedConfigs_lab⟩
  exact ⟨h2.1, h2.2, fun f => by rw [h2.2]⟩

/-- Witness for `removeDominated_noop`: the lecture component of a concrete
pure-lecture course. -/
theorem removeDominated_noop_witness :
    ("lecture", [(⟨"lecture", 3, "2_days", 2⟩ : Config), ⟨"lecture", 2, "MWF", 3⟩]) ∈
        componentsOfCourse gecCourse ∧
      dominatedConfigs [⟨"lecture", 3, "2_days", 2⟩, ⟨"lecture", 2, "MWF", 3⟩] = [] ∧
      removeDominated [⟨"lecture", 3, "2_days", 2⟩, ⟨"lecture", 2, "MWF", 3⟩] =
        [⟨"lecture", 3, "2_days", 2⟩, ⟨"lecture", 2, "MWF", 3⟩] ∧
      ∀ (optimalValue : List Config → ℚ),
        optimalValue (removeDominated
          [⟨"lecture", 3, "2_days", 2⟩, ⟨"lecture", 2, "MWF", 3⟩]) =
        optimalValue [⟨"lecture", 3, "2_days", 2⟩, ⟨"lecture", 2, "MWF", 3⟩] :=
  ⟨by decide, removeDominated_noop gecCourse "lecture" _ (by decide)⟩

/-! ## Instances and the model (`_generate_class_sections`, `build_model`,
`_add_constraints`) -/

/-- A session record with the fields `_generate_class_sections` stores; the
session's id is its position in the instance's session list (ids are assigned
by a counter running in step with the appends). -/
structure Session where
  patternId : Nat
  componentId : Nat
  durationSlots : Nat
  dayPattern : String
  program : String
  year : Nat
  block : String
  students : Nat
  roomCategory : String
  deriving Repr, DecidableEq, Inhabited

/-- One row of the rooms table. -/
structure Room where
  roomId : String
  capacity : Nat
  roomCategory : String
  deriving Repr, DecidableEq, Inhabited

/-- The data `build_model` works on.  Pattern ids and session ids are list
positions; `patternComponent p` is pattern `p`'s `component_id`. -/
structure ModelData where
  numComponents : Nat
  patternComponent : List Nat
  sessions : List Session
  rooms : List Room
  deriving Repr, DecidableEq

/-- The student-group key of a session: `(program, year, block)`. -/
def groupKey (s : Session) : String × Nat × String := (s.program, s.year, s.block)

/-- `compatibility.get((room_id, cat), False)` of `_build_compatibility_matrix`:
the dict ends up holding, for the last rooms row carrying `room_id`, the
entries `(room_id, 'lab') ↦ (room_category == 'lab')` and
`(room_id, 'non-lab') ↦ (room_category == 'non-lab')`; every other key is
absent and defaults to `False`. -/
def compatLookup (rooms : List Room) (roomId cat : String) : Bool :=
  match rooms.reverse.find? (fun r => r.roomId == roomId) with
  | none => false
  | some r =>
    if cat = "lab" then r.roomCategory = "lab"
    else if cat = "non-lab" then r.roomCategory = "non-lab"
    else false

/-- `rooms_df.loc[rooms_df['room_id'] == room_id, 'capacity'].iloc[0]`: the
capacity of the first rooms row with this id (0 when absent, where the source
would raise). -/
def capacityOf (rooms : List Room) (roomId : String) : Nat :=
  match rooms.find? (fun r => r.roomId == roomId) with
  | none => 0
  | some r => r.capacity

/-- The assignment-variable key set `self.X.keys()` that `build_model` creates:
(session, room, start) triples restricted to category-compatible,
capacity-feasible rooms and valid starts, in loop order. -/
def xKeys (d : ModelData) : List (Nat × Nat × Nat) :=
  (List.range d.sessions.length).flatMap fun i =>
    let s := d.sessions.getD i default
    (List.range d.rooms.length).flatMap fun j =>
      let roomId := (d.rooms.getD j default).roomId
      if compatLookup d.rooms roomId s.roomCategory &&
          decide (s.students ≤ capacityOf d.rooms roomId) then
        (validStartSlots s.dayPattern s.durationSlots).map fun k => (i, j, k)
      else []

/-- `slot_occupation[(i, k)]`: the slots covered by session `i` starting at
slot `k` (`[k + offset for offset in range(duration_slots)]`). -/
def slotOccupation (d : ModelData) (i k : Nat) : List Nat :=
  (List.range (d.sessions.getD i default).durationSlots).map (k + ·)

/-- The session ids owned by pattern `p`
(`[s for s in self.sessions if s['pattern_id'] == p['id']]`), in id order. -/
def sessionIdxs (d : ModelData) (p : Nat) : List Nat :=
  (List.range d.sessions.length).filter fun i =>
    (d.sessions.getD i default).patternId = p

/-- The pattern ids owned by component `cid`
(`[p for p in self.patterns if p['component_id'] == c['id']]`). -/
def patternIdxs (d : ModelData) (cid : Nat) : List Nat :=
  (List.range d.patternComponent.length).filter fun p =>
    d.patternComponent.getD p 0 = cid

/-- The `room_slot_assignments[(j, slot)]` bucket of `_add_constraints`: the
existing assignment keys whose covered slots include `slot` in room `j`. -/
def roomSlotBucket (d : ModelData) (j slot : Nat) : List (Nat × Nat × Nat) :=
  (xKeys d).filter fun t => t.2.1 = j ∧ slot ∈ slotOccupation d t.1 t.2.2

/-- The `group_slot_assignments[(group_key, slot)]` bucket: the existing keys
of sessions of cohort `g` whose covered slots include `slot`. -/
def groupSlotBucket (d : ModelData) (g : String × Nat × String) (slot : Nat) :
    List (Nat × Nat × Nat) :=
  (xKeys d).filter fun t =>
    groupKey (d.sessions.getD t.1 default) = g ∧ slot ∈ slotOccupation d t.1 t.2.2

/-- The existing keys of session `i` (any room, any start). -/
def sessionKeys (d : ModelData) (i : Nat) : List (Nat × Nat × Nat) :=
  (xKeys d).filter fun t => t.1 = i

/-- The existing keys of session `i` in room `j` (the sum
`Σ_k X[(i, j, k)]` of the same-room constraint ranges over them). -/
def sessionRoomKeys (d : ModelData) (i j : Nat) : List (Nat × Nat × Nat) :=
  (xKeys d).filter fun t => t.1 = i ∧ t.2.1 = j

/-- The existing keys of session `i` at time-of-day offset `t`
(`k % self.time_slots_per_day == t`). -/
def sessionTimeKeys (d : ModelData) (i t : Nat) : List (Nat × Nat × Nat) :=
  (xKeys d).filter fun x => x.1 = i ∧ x.2.2 % timeSlotsPerDay = t

/-- The existing keys of session `i` starting on day `day`
(`k in day_slots` for `day_slots = range(day*per_day, (day+1)*per_day)`). -/
def sessionDayKeys (d : ModelData) (i day : Nat) : List (Nat × Nat × Nat) :=
  (xKeys d).filter fun t =>
    t.1 = i ∧ day * timeSlotsPerDay ≤ t.2.2 ∧ t.2.2 < (day + 1) * timeSlotsPerDay

/-- The 0/1 value of a chosen pattern variable. -/
def yNat (b : Bool) : Nat := if b then 1 else 0

/-- Constraint family 1 of `_add_constraints` (pattern selection): for every
component owning at least one pattern, exactly one of its patterns is chosen. -/
def PatternChoiceOK (d : ModelData) (y : Nat → Bool) : Prop :=
  ∀ cid < d.numComponents, patternIdxs d cid ≠ [] →
    (patternIdxs d cid).countP y = 1

/-- Constraint family 2 (session binding): each session of a pattern is
assigned exactly `Y_p` times; the source's sum over all rooms and the session's
valid starts of `X.get(…, 0)` ranges over exactly the existing keys of the
session. -/
def SessionAssignOK (d : ModelData) (y : Nat → Bool) (a : Nat × Nat × Nat → Bool) : Prop :=
  ∀ p < d.patternComponent.length, ∀ i ∈ sessionIdxs d p,
    (sessionKeys d i).countP a = yNat (y p)

/-- Constraint family 3a (room conflict): a constraint is emitted for every
`room_slot_assignments` bucket holding more than one key. -/
def RoomConflictOK (d : ModelData) (a : Nat × Nat × Nat → Bool) : Prop :=
  ∀ j < d.rooms.length, ∀ slot < timeSlots.length,
    1 < (roomSlotBucket d j slot).length → (roomSlotBucket d j slot).countP a ≤ 1

/-- Constraint family 3b (group conflict): same for every
`group_slot_assignments` bucket. -/
def GroupConflictOK (d : ModelData) (a : Nat × Nat × Nat → Bool) : Prop :=
  ∀ g ∈ d.sessions.map groupKey, ∀ slot < timeSlots.length,
    1 < (groupSlotBucket d g slot).length → (groupSlotBucket d g slot).countP a ≤ 1

/-- Constraint family 4 (different day): for each pair of sessions of a
multi-meeting pattern and each day, when both sessions have keys on that day,
at most one of the two day-restricted sums may reach 1.  The source iterates
over index pairs `idx1 < idx2` of the pattern's session list, which is sorted
ascending, so the pairs are exactly the `i1 < i2` session-id pairs. -/
def DifferentDayOK (d : ModelData) (a : Nat × Nat × Nat → Bool) : Prop :=
  ∀ p < d.patternComponent.length, 1 < (sessionIdxs d p).length →
    ∀ i1 ∈ sessionIdxs d p, ∀ i2 ∈ sessionIdxs d p, i1 < i2 →
      ∀ day < days.length,
        sessionDayKeys d i1 day ≠ [] → sessionDayKeys d i2 day ≠ [] →
          (sessionDayKeys d i1 day).countP a + (sessionDayKeys d i2 day).countP a ≤ 1

/-- Constraint family 5a (same room): the first session of a multi-meeting
pattern and each later one have equal in-room-`j` sums, for every room. -/
def SameRoomOK (d : ModelData) (a : Nat × Nat × Nat → Bool) : Prop :=
  ∀ p < d.patternComponent.length, 1 < (sessionIdxs d p).length →
    ∀ i2 ∈ (sessionIdxs d p).tail, ∀ j < d.rooms.length,
      (sessionRoomKeys d ((sessionIdxs d p).getD 0 0) j).countP a =
        (sessionRoomKeys d i2 j).countP a

/-- Constraint family 5b (same time of day): equal at-offset-`t` sums. -/
def SameTimeOK (d : ModelData) (a : Nat × Nat × Nat → Bool) : Prop :=
  ∀ p < d.patternComponent.length, 1 < (sessionIdxs d p).length →
    ∀ i2 ∈ (sessionIdxs d p).tail, ∀ t < timeSlotsPerDay,
      (sessionTimeKeys d ((sessionIdxs d p).getD 0 0) t).countP a =
        (sessionTimeKeys d i2 t).countP a

/-- An assignment satisfying the constraint set `_add_constraints` emits.  (The
capacity fix-up constraints of step 6 constrain no existing key, because the
key set is already capacity-filtered, so they are omitted here.) -/
def SatisfiesConstraints (d : ModelData) (y : Nat → Bool)
    (a : Nat × Nat × Nat → Bool) : Prop :=
  PatternChoiceOK d y ∧ SessionAssignOK d y a ∧ RoomConflictOK d a ∧
    GroupConflictOK d a ∧ DifferentDayOK d a ∧ SameRoomOK d a ∧ SameTimeOK d a

/-! ## Structural lemmas about the key set -/

/-- Membership in a conditionally-empty list. -/
theorem mem_ite_nil {α : Type} {p : Prop} [Decidable p] {l : List α} {x : α} :
    x ∈ (if p then l else []) ↔ p ∧ x ∈ l := by
  split <;> simp_all

/-- Characterisation of the created assignment keys: `(i, j, k)` exists exactly
when `i` and `j` are in range, room `j` passes the compatibility lookup and the
capacity test for session `i`, and `k` is one of the session's valid starts. -/
theorem mem_xKeys (d : ModelData) (i j k : Nat) :
    (i, j, k) ∈ xKeys d ↔
      i < d.sessions.length ∧ j < d.rooms.length ∧
      compatLookup d.rooms (d.rooms.getD j default).roomId
          (d.sessions.getD i default).roomCategory = true ∧
      (d.sessions.getD i default).students ≤
        capacityOf d.rooms (d.rooms.getD j default).roomId ∧
      k ∈ validStartSlots (d.sessions.getD i default).dayPattern
        (d.sessions.getD i default).durationSlots := by
  unfold xKeys
  simp only [List.mem_flatMap, List.mem_range, mem_ite_nil, List.mem_map,
    Bool.and_eq_true, decide_eq_true_eq]
  constructor
  · rintro ⟨i', hi', j', hj', ⟨hcompat, hcap⟩, k', hk', heq⟩
    obtain ⟨rfl, rfl, rfl⟩ : i' = i ∧ j' = j ∧ k' = k := by
      injection heq with h1 h2; injection h2 with h2 h3; exact ⟨h1, h2, h3⟩
    exact ⟨hi', hj', hcompat, hcap, hk'⟩
  · rintro ⟨hi, hj, hcompat, hcap, hk⟩
    exact ⟨i, hi, j, hj, ⟨hcompat, hcap⟩, k, hk, rfl⟩

/-- A member of the valid-start list fits inside the grid:
`k + duration - 1 < 80`. -/
theorem validStartSlots_fit {p : String} {dur k : Nat}
    (h : k ∈ validStartSlots p dur) : k + dur - 1 < timeSlots.length := by
  simp only [validStartSlots, List.mem_filter, List.mem_range] at h
  obtain ⟨-, hpred⟩ := h
  by_contra hcon
  push_neg at hcon
  revert hpred
  simp [hcon]

/-- Every slot covered by a valid start lies inside the grid. -/
theorem slotOccupation_lt (d : ModelData) {i k slot : Nat}
    (hk : k ∈ validStartSlots (d.sessions.getD i default).dayPattern
      (d.sessions.getD i default).durationSlots)
    (hslot : slot ∈ slotOccupation d i k) : slot < timeSlots.length := by
  have hfit := validStartSlots_fit hk
  simp only [slotOccupation, List.mem_map, List.mem_range] at hslot
  obtain ⟨o, ho, rfl⟩ := hslot
  omega

/-- Two distinct members force length at least two. -/
theorem two_le_length_of_mem {α : Type} {l : List α} {x y : α}
    (hx : x ∈ l) (hy : y ∈ l) (hne : x ≠ y) : 2 ≤ l.length := by
  rcases List.mem_iff_append.mp hx with ⟨s, t, rfl⟩
  rcases List.mem_append.mp hy with hy' | hy'
  · have := List.length_pos_of_mem hy'
    simp [List.length_append]
    omega
  · rcases hy' with _ | ⟨_, hy''⟩
    · exact absurd rfl hne
    · have := List.length_pos_of_mem hy''
      simp [List.length_append]
      omega

/-- With duplicate-free room ids, searching by a row's id finds that row. -/
theorem find?_by_roomId {l : List Room} (hnd : (l.map Room.roomId).Nodup)
    {r : Room} (hr : r ∈ l) :
    l.find? (fun x => x.roomId == r.roomId) = some r := by
  induction l with
  | nil => simp at hr
  | cons a as ih =>
    simp only [List.map_cons, List.nodup_cons] at hnd
    rcases List.mem_cons.mp hr with rfl | hr2
    · rw [List.find?_cons_of_pos _ (by simp)]
    · have hne : a.roomId ≠ r.roomId := fun h =>
        hnd.1 (h ▸ List.mem_map_of_mem Room.roomId hr2)
      rw [List.find?_cons_of_neg _ (by simpa using hne)]
      exact ih hnd.2 hr2

/-- `getD` at an in-range index is a member. -/
theorem getD_mem {α : Type} {l : List α} {j : Nat} (h : j < l.length) (dflt : α) :
    l.getD j dflt ∈ l := by
  rw [List.getD_eq_getElem l dflt h]
  exact List.getElem_mem h

/-- With duplicate-free room ids, the compatibility lookup for a row's id
reduces to the category test of that row. -/
theorem compatLookup_of_nodup {rooms : List Room}
    (hnd : (rooms.map Room.roomId).Nodup) {r : Room} (hr : r ∈ rooms)
    (cat : String) :
    compatLookup rooms r.roomId cat =
      (if cat = "lab" then decide (r.roomCategory = "lab")
       else if cat = "non-lab" then decide (r.roomCategory = "non-lab")
       else false) := by
  unfold compatLookup
  rw [find?_by_roomId (by simpa [List.map_reverse] using hnd)
    (List.mem_reverse.mpr hr)]

/-- With duplicate-free room ids, the capacity lookup for a row's id is that
row's capacity. -/
theorem capacityOf_of_nodup {rooms : List Room}
    (hnd : (rooms.map Room.roomId).Nodup) {r : Room} (hr : r ∈ rooms) :
    capacityOf rooms r.roomId = r.capacity := by
  unfold capacityOf
  rw [find?_by_roomId hnd hr]

/-- C5: with well-formed room ids, an assignment variable `X_(i,j,k)` exists
iff room `j`'s category equals session `i`'s required category (a strict
partition over 'lab'/'non-lab'), the session's students fit the room's
capacity, and `k` is one of the session's valid starts; in particular a
lecture (non-lab) session is never assignable to a lab room. -/
theorem xVar_exists_iff (d : ModelData)
    (hnd : (d.rooms.map Room.roomId).Nodup)
    (i j k : Nat) (hi : i < d.sessions.length) (hj : j < d.rooms.length)
    (hcat : (d.sessions.getD i default).roomCategory = "lab" ∨
      (d.sessions.getD i default).roomCategory = "non-lab") :
    ((i, j, k) ∈ xKeys d ↔
      (d.rooms.getD j default).roomCategory =
          (d.sessions.getD i default).roomCategory ∧
        (d.sessions.getD i default).students ≤ (d.rooms.getD j default).capacity ∧
        k ∈ validStartSlots (d.sessions.getD i default).dayPattern
          (d.sessions.getD i default).durationSlots) ∧
      ((d.sessions.getD i default).roomCategory = "non-lab" →
        (d.rooms.getD j default).roomCategory = "lab" → (i, j, k) ∉ xKeys d) := by
  have hr : d.rooms.getD j default ∈ d.rooms := getD_mem hj default
  have hcompat := compatLookup_of_nodup hnd hr
    (d.sessions.getD i default).roomCategory
  have hcap := capacityOf_of_nodup hnd hr
  have hmain : (i, j, k) ∈ xKeys d ↔
      (d.rooms.getD j default).roomCategory =
          (d.sessions.getD i default).roomCategory ∧
        (d.sessions.getD i default).students ≤ (d.rooms.getD j default).capacity ∧
        k ∈ validStartSlots (d.sessions.getD i default).dayPattern
          (d.sessions.getD i default).durationSlots := by
    rw [mem_xKeys]
    rcases hcat with hcat | hcat <;> rw [hcat] at hcompat ⊢ <;>
      rw [hcompat, hcap] <;> simp [hi, hj]
  refine ⟨hmain, fun hnonlab hlab hmem => ?_⟩
  have := (hmain.mp hmem).1
  rw [hlab, hnonlab] at this
  simp at this

/-! ## Counting helpers -/

/-- A predicate holding on two members of a list with `countP ≤ 1` forces the
members to coincide. -/
theorem countP_le_one_unique {α : Type} {l : List α} {pr : α → Bool}
    (h : l.countP pr ≤ 1) {x y : α} (hx : x ∈ l) (hpx : pr x = true)
    (hy : y ∈ l) (hpy : pr y = true) : x = y := by
  by_contra hne
  have h2 : 2 ≤ (l.filter pr).length :=
    two_le_length_of_mem (List.mem_filter.mpr ⟨hx, hpx⟩)
      (List.mem_filter.mpr ⟨hy, hpy⟩) hne
  rw [List.countP_eq_length_filter] at h
  omega

/-- Filtering by a stronger predicate cannot increase a `countP`. -/
theorem countP_filter_le_of_imp {α : Type} (l : List α) (p q r : α → Bool)
    (himp : ∀ x ∈ l, q x = true → r x = true) :
    (l.filter q).countP p ≤ (l.filter r).countP p := by
  induction l with
  | nil => simp
  | cons xh xt ih =>
    have ih2 := ih fun x hx => himp x (List.mem_cons_of_mem _ hx)
    rcases Bool.eq_false_or_eq_true (q xh) with hq | hq
    · have hr := himp xh (List.mem_cons_self _ _) hq
      simp only [List.filter_cons, hq, hr, if_true, List.countP_cons]
      omega
    · simp only [List.filter_cons, hq, Bool.false_eq_true, if_false]
      rcases Bool.eq_false_or_eq_true (r xh) with hr | hr
      · simp only [hr, if_true, List.countP_cons]
        omega
      · simp only [hr, Bool.false_eq_true, if_false]
        exact ih2

/-! ## C1: room-conflict and group-conflict invariants -/

/-- Unpacking membership in a room-slot bucket. -/
theorem mem_roomSlotBucket {d : ModelData} {t : Nat × Nat × Nat} {j slot : Nat}
    (ht : t ∈ roomSlotBucket d j slot) :
    t ∈ xKeys d ∧ t.2.1 = j ∧ slot ∈ slotOccupation d t.1 t.2.2 := by
  have := List.mem_filter.mp ht
  refine ⟨this.1, ?_⟩
  simpa using this.2

/-- Unpacking membership in a group-slot bucket. -/
theorem mem_groupSlotBucket {d : ModelData} {t : Nat × Nat × Nat}
    {g : String × Nat × String} {slot : Nat} (ht : t ∈ groupSlotBucket d g slot) :
    t ∈ xKeys d ∧ groupKey (d.sessions.getD t.1 default) = g ∧
      slot ∈ slotOccupation d t.1 t.2.2 := by
  have := List.mem_filter.mp ht
  refine ⟨this.1, ?_⟩
  simpa using this.2

/-- The facts `mem_xKeys` yields about an arbitrary triple. -/
theorem of_mem_xKeys {d : ModelData} {t : Nat × Nat × Nat} (ht : t ∈ xKeys d) :
    t.1 < d.sessions.length ∧ t.2.1 < d.rooms.length ∧
      t.2.2 ∈ validStartSlots (d.sessions.getD t.1 default).dayPattern
        (d.sessions.getD t.1 default).durationSlots := by
  have h := (mem_xKeys d t.1 t.2.1 t.2.2).mp ht
  exact ⟨h.1, h.2.1, h.2.2.2.2⟩

/-- C1: any assignment satisfying the constraint set `_add_constraints` emits
books every (room, slot) pair at most once, and every (cohort, slot) pair at
most once: the chosen assignment keys covering it number at most one. -/
theorem no_double_booking (d : ModelData) (y : Nat → Bool)
    (a : Nat × Nat × Nat → Bool) (h : SatisfiesConstraints d y a) :
    (∀ j slot, ((roomSlotBucket d j slot).filter a).length ≤ 1) ∧
      (∀ g slot, ((groupSlotBucket d g slot).filter a).length ≤ 1) := by
  obtain ⟨-, -, hroom, hgroup, -, -, -⟩ := h
  constructor
  · intro j slot
    rcases Nat.lt_or_ge 1 (roomSlotBucket d j slot).length with hlen | hlen
    · obtain ⟨t, ht⟩ := List.exists_mem_of_length_pos (l := roomSlotBucket d j slot)
        (by omega)
      obtain ⟨hx, hj, hslot⟩ := mem_roomSlotBucket ht
      obtain ⟨-, hjlt, hk⟩ := of_mem_xKeys hx
      rw [← List.countP_eq_length_filter]
      exact hroom j (hj ▸ hjlt) slot (slotOccupation_lt d hk hslot) hlen
    · calc ((roomSlotBucket d j slot).filter a).length
          ≤ (roomSlotBucket d j slot).length := List.length_filter_le _ _
        _ ≤ 1 := hlen
  · intro g slot
    rcases Nat.lt_or_ge 1 (groupSlotBucket d g slot).length with hlen | hlen
    · obtain ⟨t, ht⟩ := List.exists_mem_of_length_pos (l := groupSlotBucket d g slot)
        (by omega)
      obtain ⟨hx, hg, hslot⟩ := mem_groupSlotBucket ht
      obtain ⟨hilt, -, hk⟩ := of_mem_xKeys hx
      rw [← List.countP_eq_length_filter]
      refine hgroup g ?_ slot (slotOccupation_lt d hk hslot) hlen
      exact hg ▸ List.mem_map_of_mem groupKey (getD_mem hilt default)
    · calc ((groupSlotBucket d g slot).filter a).length
          ≤ (groupSlotBucket d g slot).length := List.length_filter_le _ _
        _ ≤ 1 := hlen

/-! ## C2: cohesion and distinct-day invariants -/

/-- Membership in a session's key list. -/
theorem mem_sessionKeys_iff {d : ModelData} {i : Nat} {t : Nat × Nat × Nat} :
    t ∈ sessionKeys d i ↔ t ∈ xKeys d ∧ t.1 = i := by
  simp [sessionKeys, List.mem_filter]

/-- Membership in a session's in-room key list. -/
theorem mem_sessionRoomKeys_iff {d : ModelData} {i j : Nat} {t : Nat × Nat × Nat} :
    t ∈ sessionRoomKeys d i j ↔ t ∈ xKeys d ∧ t.1 = i ∧ t.2.1 = j := by
  simp [sessionRoomKeys, List.mem_filter]

/-- Membership in a session's at-offset key list. -/
theorem mem_sessionTimeKeys_iff {d : ModelData} {i off : Nat} {t : Nat × Nat × Nat} :
    t ∈ sessionTimeKeys d i off ↔
      t ∈ xKeys d ∧ t.1 = i ∧ t.2.2 % timeSlotsPerDay = off := by
  simp [sessionTimeKeys, List.mem_filter]

/-- Membership in a session's on-day key list. -/
theorem mem_sessionDayKeys_iff {d : ModelData} {i day : Nat} {t : Nat × Nat × Nat} :
    t ∈ sessionDayKeys d i day ↔
      t ∈ xKeys d ∧ t.1 = i ∧ day * timeSlotsPerDay ≤ t.2.2 ∧
        t.2.2 < (day + 1) * timeSlotsPerDay := by
  simp [sessionDayKeys, List.mem_filter, and_assoc]

/-- A session of a chosen pattern has exactly one chosen key. -/
theorem chosen_count_one (d : ModelData) (y : Nat → Bool) (a : Nat × Nat × Nat → Bool)
    (hassign : SessionAssignOK d y a) {p : Nat}
    (hp : p < d.patternComponent.length) (hy : y p = true) {i : Nat}
    (hi : i ∈ sessionIdxs d p) : (sessionKeys d i).countP a = 1 := by
  have h := hassign p hp i hi
  rw [hy] at h
  simpa [yNat] using h

/-- There are sixteen slots per day. -/
theorem timeSlotsPerDay_eq : timeSlotsPerDay = 16 := by decide

/-- Any chosen key of any session of a chosen multi-meeting pattern sits in the
same room as the head session's chosen key (via the same-room constraints). -/
theorem chosen_room_matches_head (d : ModelData) (y : Nat → Bool)
    (a : Nat × Nat × Nat → Bool) (hassign : SessionAssignOK d y a)
    (hsame : SameRoomOK d a) {p : Nat} (hp : p < d.patternComponent.length)
    (hy : y p = true) (hmulti : 1 < (sessionIdxs d p).length)
    {th : Nat × Nat × Nat} (hthk : th ∈ sessionKeys d ((sessionIdxs d p).getD 0 0))
    (htha : a th = true) {i j k : Nat} (hi : i ∈ sessionIdxs d p)
    (hx : (i, j, k) ∈ xKeys d) (ha : a (i, j, k) = true) :
    j = th.2.1 := by
  obtain ⟨hthx, hth1⟩ := mem_sessionKeys_iff.mp hthk
  rcases hsp : sessionIdxs d p with _ | ⟨hd0, tl⟩
  · rw [hsp] at hmulti; simp at hmulti
  have hgetD : (sessionIdxs d p).getD 0 0 = hd0 := by rw [hsp]; rfl
  rcases List.mem_cons.mp (hsp ▸ hi) with rfl | htl
  · -- `i` is the head session: its chosen key is unique
    have hcnt := chosen_count_one d y a hassign hp hy hi
    have : (i, j, k) = th :=
      countP_le_one_unique (le_of_eq hcnt)
        (mem_sessionKeys_iff.mpr ⟨hx, rfl⟩) ha
        (mem_sessionKeys_iff.mpr ⟨hthx, by rw [hth1, hgetD]⟩) htha
    rw [← this]
  · -- `i` is a later session: transfer through the same-room constraint
    have hhd_mem : hd0 ∈ sessionIdxs d p := by rw [hsp]; exact List.mem_cons_self _ _
    have hjh : th.2.1 < d.rooms.length := (of_mem_xKeys hthx).2.1
    have hpos : 0 < (sessionRoomKeys d hd0 th.2.1).countP a :=
      List.countP_pos_iff.mpr ⟨th, mem_sessionRoomKeys_iff.mpr
        ⟨hthx, by rw [hth1, hgetD], rfl⟩, htha⟩
    have heq := hsame p hp hmulti i (by rw [hsp]; exact htl) th.2.1 hjh
    rw [hgetD] at heq
    rw [heq] at hpos
    obtain ⟨t2, ht2mem, ht2a⟩ := List.countP_pos_iff.mp hpos
    obtain ⟨ht2x, ht2i, ht2j⟩ := mem_sessionRoomKeys_iff.mp ht2mem
    have hcnt := chosen_count_one d y a hassign hp hy hi
    have heqt : (i, j, k) = t2 :=
      countP_le_one_unique (le_of_eq hcnt)
        (mem_sessionKeys_iff.mpr ⟨hx, rfl⟩) ha
        (mem_sessionKeys_iff.mpr ⟨ht2x, ht2i⟩) ht2a
    rw [← heqt] at ht2j
    exact ht2j.symm ▸ rfl

/-- Any chosen key of any session of a chosen multi-meeting pattern starts at
the same time-of-day offset as the head session's chosen key. -/
theorem chosen_time_matches_head (d : ModelData) (y : Nat → Bool)
    (a : Nat × Nat × Nat → Bool) (hassign : SessionAssignOK d y a)
    (hsame : SameTimeOK d a) {p : Nat} (hp : p < d.patternComponent.length)
    (hy : y p = true) (hmulti : 1 < (sessionIdxs d p).length)
    {th : Nat × Nat × Nat} (hthk : th ∈ sessionKeys d ((sessionIdxs d p).getD 0 0))
    (htha : a th = true) {i j k : Nat} (hi : i ∈ sessionIdxs d p)
    (hx : (i, j, k) ∈ xKeys d) (ha : a (i, j, k) = true) :
    k % timeSlotsPerDay = th.2.2 % timeSlotsPerDay := by
  obtain ⟨hthx, hth1⟩ := mem_sessionKeys_iff.mp hthk
  rcases hsp : sessionIdxs d p with _ | ⟨hd0, tl⟩
  · rw [hsp] at hmulti; simp at hmulti
  have hgetD : (sessionIdxs d p).getD 0 0 = hd0 := by rw [hsp]; rfl
  rcases List.mem_cons.mp (hsp ▸ hi) with rfl | htl
  · have hcnt := chosen_count_one d y a hassign hp hy hi
    have : (i, j, k) = th :=
      countP_le_one_unique (le_of_eq hcnt)
        (mem_sessionKeys_iff.mpr ⟨hx, rfl⟩) ha
        (mem_sessionKeys_iff.mpr ⟨hthx, by rw [hth1, hgetD]⟩) htha
    rw [← this]
  · have hoff : th.2.2 % timeSlotsPerDay < timeSlotsPerDay :=
      Nat.mod_lt _ (by rw [timeSlotsPerDay_eq]; omega)
    have hpos : 0 < (sessionTimeKeys d hd0 (th.2.2 % timeSlotsPerDay)).countP a :=
      List.countP_pos_iff.mpr ⟨th, mem_sessionTimeKeys_iff.mpr
        ⟨hthx, by rw [hth1, hgetD], rfl⟩, htha⟩
    have heq := hsame p hp hmulti i (by rw [hsp]; exact htl)
      (th.2.2 % timeSlotsPerDay) hoff
    rw [hgetD] at heq
    rw [heq] at hpos
    obtain ⟨t2, ht2mem, ht2a⟩ := List.countP_pos_iff.mp hpos
    obtain ⟨ht2x, ht2i, ht2t⟩ := mem_sessionTimeKeys_iff.mp ht2mem
    have hcnt := chosen_count_one d y a hassign hp hy hi
    have heqt : (i, j, k) = t2 :=
      countP_le_one_unique (le_of_eq hcnt)
        (mem_sessionKeys_iff.mpr ⟨hx, rfl⟩) ha
        (mem_sessionKeys_iff.mpr ⟨ht2x, ht2i⟩) ht2a
    rw [← heqt] at ht2t
    exact ht2t

/-- C2: in any satisfying assignment that chooses a multi-meeting pattern, any
two of the pattern's placed sessions share the room, share the time-of-day
offset (start slot modulo slots-per-day), and start on different calendar days
(start slot divided by slots-per-day). -/
theorem pattern_cohesion (d : ModelData) (y : Nat → Bool)
    (a : Nat × Nat × Nat → Bool) (h : SatisfiesConstraints d y a)
    (p : Nat) (hp : p < d.patternComponent.length) (hy : y p = true)
    (hmulti : 1 < (sessionIdxs d p).length)
    (i1 i2 j1 k1 j2 k2 : Nat)
    (h1 : i1 ∈ sessionIdxs d p) (h2 : i2 ∈ sessionIdxs d p) (hne : i1 ≠ i2)
    (hx1 : (i1, j1, k1) ∈ xKeys d) (ha1 : a (i1, j1, k1) = true)
    (hx2 : (i2, j2, k2) ∈ xKeys d) (ha2 : a (i2, j2, k2) = true) :
    j1 = j2 ∧ k1 % timeSlotsPerDay = k2 % timeSlotsPerDay ∧
      k1 / timeSlotsPerDay ≠ k2 / timeSlotsPerDay := by
  obtain ⟨-, hassign, -, -, hdiffday, hsameroom, hsametime⟩ := h
  -- the head session's unique chosen key
  have hd_mem : (sessionIdxs d p).getD 0 0 ∈ sessionIdxs d p :=
    getD_mem (by omega) 0
  have hcnt := chosen_count_one d y a hassign hp hy hd_mem
  have hpos0 : 0 < (sessionKeys d ((sessionIdxs d p).getD 0 0)).countP a := by
    omega
  obtain ⟨th, hthmem, htha⟩ := List.countP_pos_iff.mp hpos0
  refine ⟨?_, ?_, ?_⟩
  · rw [chosen_room_matches_head d y a hassign hsameroom hp hy hmulti hthmem htha
      h1 hx1 ha1,
      chosen_room_matches_head d y a hassign hsameroom hp hy hmulti hthmem htha
      h2 hx2 ha2]
  · rw [chosen_time_matches_head d y a hassign hsametime hp hy hmulti hthmem htha
      h1 hx1 ha1,
      chosen_time_matches_head d y a hassign hsametime hp hy hmulti hthmem htha
      h2 hx2 ha2]
  · -- distinct days through the different-day constraints
    intro hdd0
    have h16 := timeSlotsPerDay_eq
    rw [h16] at hdd0
    have hk1lt : k1 < timeSlots.length :=
      mem_validStartSlots_lt _ _ _ (of_mem_xKeys hx1).2.2
    have hk2lt : k2 < timeSlots.length :=
      mem_validStartSlots_lt _ _ _ (of_mem_xKeys hx2).2.2
    rw [timeSlots_length] at hk1lt hk2lt
    have hdays : days.length = 5 := by decide
    have hdaylt : k1 / 16 < days.length := by omega
    have hmem1 : (i1, j1, k1) ∈ sessionDayKeys d i1 (k1 / 16) :=
      mem_sessionDayKeys_iff.mpr ⟨hx1, rfl,
        by rw [h16]; show k1 / 16 * 16 ≤ k1; omega,
        by rw [h16]; show k1 < (k1 / 16 + 1) * 16; omega⟩
    have hmem2 : (i2, j2, k2) ∈ sessionDayKeys d i2 (k1 / 16) :=
      mem_sessionDayKeys_iff.mpr ⟨hx2, rfl,
        by rw [h16]; show k1 / 16 * 16 ≤ k2; omega,
        by rw [h16]; show k2 < (k1 / 16 + 1) * 16; omega⟩
    have hpos1 : 0 < (sessionDayKeys d i1 (k1 / 16)).countP a :=
      List.countP_pos_iff.mpr ⟨_, hmem1, ha1⟩
    have hpos2 : 0 < (sessionDayKeys d i2 (k1 / 16)).countP a :=
      List.countP_pos_iff.mpr ⟨_, hmem2, ha2⟩
    rcases Nat.lt_or_ge i1 i2 with hlt | hge
    · have := hdiffday p hp hmulti i1 h1 i2 h2 hlt (k1 / 16) hdaylt
        (List.ne_nil_of_mem hmem1) (List.ne_nil_of_mem hmem2)
      omega
    · have hlt2 : i2 < i1 := Nat.lt_of_le_of_ne hge (Ne.symm hne)
      have := hdiffday p hp hmulti i2 h2 i1 h1 hlt2 (k1 / 16) hdaylt
        (List.ne_nil_of_mem hmem2) (List.ne_nil_of_mem hmem1)
      omega

set_option synthInstance.maxSize 3000 in
set_option synthInstance.maxHeartbeats 2000000 in
/-- `SatisfiesConstraints` is decidable, so witnesses can be evaluated. -/
instance (d : ModelData) (y : Nat → Bool) (a : Nat × Nat × Nat → Bool) :
    Decidable (SatisfiesConstraints d y a) := by
  unfold SatisfiesConstraints PatternChoiceOK SessionAssignOK RoomConflictOK
    GroupConflictOK DifferentDayOK SameRoomOK SameTimeOK
  exact inferInstance

/-- A sample instance: one component, one two-meeting 1.5h pattern for cohort
(IT, 1, A), one adequate non-lab room. -/
def sampleData : ModelData where
  numComponents := 1
  patternComponent := [0]
  sessions :=
    [⟨0, 0, 3, "2_days", "IT", 1, "A", 20, "non-lab"⟩,
     ⟨0, 0, 3, "2_days", "IT", 1, "A", 20, "non-lab"⟩]
  rooms := [⟨"R1", 30, "non-lab"⟩]

/-- A sample solution: the pattern is chosen. -/
def sampleY : Nat → Bool := fun p => decide (p = 0)

/-- A sample solution: session 0 at Monday 08:00, session 1 at Tuesday 08:00,
both in room 0. -/
def sampleA : Nat × Nat × Nat → Bool := fun t =>
  decide (t = (0, 0, 0) ∨ t = (1, 0, 16))

/-- Witness for `no_double_booking` on the sample instance. -/
theorem no_double_booking_witness :
    SatisfiesConstraints sampleData sampleY sampleA ∧
      (∀ j slot, ((roomSlotBucket sampleData j slot).filter sampleA).length ≤ 1) ∧
      (∀ g slot, ((groupSlotBucket sampleData g slot).filter sampleA).length ≤ 1) := by
  have hsat : SatisfiesConstraints sampleData sampleY sampleA := by decide
  exact ⟨hsat, no_double_booking sampleData sampleY sampleA hsat⟩

/-- Witness for `pattern_cohesion` on the sample instance: the two placed
sessions share room 0 and offset 0 and sit on different days. -/
theorem pattern_cohesion_witness :
    SatisfiesConstraints sampleData sampleY sampleA ∧
      ((0 : Nat) = 0 ∧ 0 % timeSlotsPerDay = 16 % timeSlotsPerDay ∧
        0 / timeSlotsPerDay ≠ 16 / timeSlotsPerDay) := by
  have hsat : SatisfiesConstraints sampleData sampleY sampleA := by decide
  exact ⟨hsat, pattern_cohesion sampleData sampleY sampleA hsat 0 (by decide)
    (by decide) (by decide) 0 1 0 0 0 16 (by decide) (by decide) (by decide)
    (by decide) (by decide) (by decide) (by decide)⟩

/-- Witness for `xVar_exists_iff` on the sample instance at `(0, 0, 0)`. -/
theorem xVar_exists_iff_witness :
    (sampleData.rooms.map Room.roomId).Nodup ∧
      (((0, 0, 0) ∈ xKeys sampleData ↔
        (sampleData.rooms.getD 0 default).roomCategory =
            (sampleData.sessions.getD 0 default).roomCategory ∧
          (sampleData.sessions.getD 0 default).students ≤
            (sampleData.rooms.getD 0 default).capacity ∧
          0 ∈ validStartSlots (sampleData.sessions.getD 0 default).dayPattern
            (sampleData.sessions.getD 0 default).durationSlots) ∧
        ((sampleData.sessions.getD 0 default).roomCategory = "non-lab" →
          (sampleData.rooms.getD 0 default).roomCategory = "lab" →
          (0, 0, 0) ∉ xKeys sampleData)) := by
  have hnd : (sampleData.rooms.map Room.roomId).Nodup := by decide
  exact ⟨hnd, xVar_exists_iff sampleData hnd 0 0 0 (by decide) (by decide)
    (by decide)⟩

/-! ## Warm-start heuristic (`_generate_initial_solution`) -/

/-- The heuristic's running solution and occupied-slot sets (`solution`,
`occupied_room_slots`, `occupied_group_slots`); Python sets are embedded as
lists queried by membership. -/
structure GreedyState where
  chosenY : List Nat
  chosenX : List (Nat × Nat × Nat)
  occRoom : List (Nat × Nat)
  occGroup : List ((String × Nat × String) × Nat)
  deriving Repr, DecidableEq

/-- The conflict check of the heuristic: none of the session's covered slots
may be claimed in the committed or temporary room/group sets. -/
def noConflict (occR tmpR : List (Nat × Nat))
    (occG tmpG : List ((String × Nat × String) × Nat))
    (g : String × Nat × String) (j : Nat) (slots : List Nat) : Bool :=
  slots.all fun slot =>
    !(decide ((j, slot) ∈ occR) || decide ((j, slot) ∈ tmpR) ||
      decide ((g, slot) ∈ occG) || decide ((g, slot) ∈ tmpG))

/-- The (room, start) candidates for a session, in the heuristic's search
order: rooms by index, skipping capacity or compatibility failures, then the
session's valid starts. -/
def candidatePairs (d : ModelData) (s : Session) : List (Nat × Nat) :=
  (List.range d.rooms.length).flatMap fun j =>
    let roomId := (d.rooms.getD j default).roomId
    if decide (s.students ≤ capacityOf d.rooms roomId) &&
        compatLookup d.rooms roomId s.roomCategory then
      (validStartSlots s.dayPattern s.durationSlots).map fun k => (j, k)
    else []

/-- Place every session of a pattern, in order, at its first conflict-free
candidate, extending the temporary claim sets; `none` when some session fits
nowhere (`is_pattern_schedulable = False`). -/
def placeSessions (d : ModelData) (occR : List (Nat × Nat))
    (occG : List ((String × Nat × String) × Nat)) :
    List Nat → List (Nat × Nat × Nat) → List (Nat × Nat) →
      List ((String × Nat × String) × Nat) →
      Option (List (Nat × Nat × Nat) × List (Nat × Nat) ×
        List ((String × Nat × String) × Nat))
  | [], acc, tmpR, tmpG => some (acc, tmpR, tmpG)
  | i :: rest, acc, tmpR, tmpG =>
    let s := d.sessions.getD i default
    let g := groupKey s
    match (candidatePairs d s).find? (fun jk =>
        noConflict occR tmpR occG tmpG g jk.1 (slotOccupation d i jk.2)) with
    | none => none
    | some (j, k) =>
      placeSessions d occR occG rest (acc ++ [(i, j, k)])
        (tmpR ++ (slotOccupation d i k).map fun slot => (j, slot))
        (tmpG ++ (slotOccupation d i k).map fun slot => (g, slot))

/-- Try each pattern of one component in order and commit the first that fully
places (all-or-none); on success the temporary claims become occupied and the
loop breaks to the next component. -/
def tryPatterns (d : ModelData) (st : GreedyState) : List Nat → GreedyState
  | [] => st
  | p :: rest =>
    match placeSessions d st.occRoom st.occGroup (sessionIdxs d p) [] [] [] with
    | none => tryPatterns d st rest
    | some (acc, tmpR, tmpG) =>
      { chosenY := st.chosenY ++ [p]
        chosenX := st.chosenX ++ acc
        occRoom := st.occRoom ++ tmpR
        occGroup := st.occGroup ++ tmpG }

/-- Comparison key of the heuristic's component sort: available-pattern
count. -/
def greedyLE (d : ModelData) (c1 c2 : Nat) : Prop :=
  (patternIdxs d c1).length ≤ (patternIdxs d c2).length

instance (d : ModelData) : DecidableRel (greedyLE d) := fun _ _ =>
  inferInstanceAs (Decidable (_ ≤ _))

instance (d : ModelData) : IsTotal Nat (greedyLE d) :=
  ⟨fun _ _ => Nat.le_total _ _⟩

instance (d : ModelData) : IsTrans Nat (greedyLE d) :=
  ⟨fun _ _ _ => Nat.le_trans⟩

/-- The component processing order: ascending available-pattern count, via a
stable sort (Python's `sorted` is a stable ascending sort, and every stable
ascending sort of the same keys produces the same list). -/
def greedyOrder (d : ModelData) : List Nat :=
  (List.range d.numComponents).insertionSort (greedyLE d)

/-- Embedding of `_generate_initial_solution`. -/
def generateInitialSolution (d : ModelData) : GreedyState :=
  (greedyOrder d).foldl (fun st c => tryPatterns d st (patternIdxs d c))
    ⟨[], [], [], []⟩

/-- All (room, slot) claims of a list of assignment keys, in order. -/
def roomClaims (d : ModelData) (l : List (Nat × Nat × Nat)) : List (Nat × Nat) :=
  l.flatMap fun t => (slotOccupation d t.1 t.2.2).map fun slot => (t.2.1, slot)

/-- All (group, slot) claims of a list of assignment keys, in order. -/
def groupClaims (d : ModelData) (l : List (Nat × Nat × Nat)) :
    List ((String × Nat × String) × Nat) :=
  l.flatMap fun t => (slotOccupation d t.1 t.2.2).map fun slot =>
    (groupKey (d.sessions.getD t.1 default), slot)

/-- The invariant the heuristic maintains: the occupied sets are exactly the
claims of the solution, the claims are duplicate-free (conflict-freedom), the
chosen keys' sessions are exactly the chosen patterns' sessions, and no
component contributes two patterns. -/
def GoodState (d : ModelData) (st : GreedyState) : Prop :=
  st.occRoom = roomClaims d st.chosenX ∧
  st.occGroup = groupClaims d st.chosenX ∧
  (roomClaims d st.chosenX).Nodup ∧
  (groupClaims d st.chosenX).Nodup ∧
  st.chosenX.map (fun t => t.1) = st.chosenY.flatMap (sessionIdxs d) ∧
  (st.chosenY.map fun p => d.patternComponent.getD p 0).Nodup

/-- Covered slots of one key are pairwise distinct. -/
theorem slotOccupation_nodup (d : ModelData) (i k : Nat) :
    (slotOccupation d i k).Nodup := by
  unfold slotOccupation
  exact (List.nodup_range _).map fun a b h => by omega

/-- The conflict check really excludes every covered claim from all four claim
sets. -/
theorem noConflict_spec {occR tmpR : List (Nat × Nat)}
    {occG tmpG : List ((String × Nat × String) × Nat)}
    {g : String × Nat × String} {j : Nat} {slots : List Nat}
    (h : noConflict occR tmpR occG tmpG g j slots = true) :
    ∀ slot ∈ slots, ((j, slot) ∉ occR ∧ (j, slot) ∉ tmpR) ∧
      ((g, slot) ∉ occG ∧ (g, slot) ∉ tmpG) := by
  intro slot hslot
  have h2 := List.all_eq_true.mp h slot hslot
  simp only [Bool.not_eq_true', Bool.or_eq_false_iff, decide_eq_false_iff_not] at h2
  exact ⟨⟨h2.1.1.1, h2.1.1.2⟩, ⟨h2.1.2, h2.2⟩⟩

/-- What a successful `placeSessions` run produces: the new assignments cover
the given sessions in order, their claims extend the temporary sets, avoid the
occupied and temporary sets, and are duplicate-free. -/
theorem placeSessions_sound (d : ModelData) (occR : List (Nat × Nat))
    (occG : List ((String × Nat × String) × Nat)) :
    ∀ (is : List Nat) (acc : List (Nat × Nat × Nat)) (tmpR : List (Nat × Nat))
      (tmpG : List ((String × Nat × String) × Nat))
      (out : List (Nat × Nat × Nat) × List (Nat × Nat) ×
        List ((String × Nat × String) × Nat)),
      placeSessions d occR occG is acc tmpR tmpG = some out →
      ∃ new : List (Nat × Nat × Nat),
        out = (acc ++ new, tmpR ++ roomClaims d new, tmpG ++ groupClaims d new) ∧
        new.map (fun t => t.1) = is ∧
        (∀ c ∈ roomClaims d new, c ∉ occR ∧ c ∉ tmpR) ∧
        (∀ c ∈ groupClaims d new, c ∉ occG ∧ c ∉ tmpG) ∧
        (roomClaims d new).Nodup ∧ (groupClaims d new).Nodup := by
  intro is
  induction is with
  | nil =>
    intro acc tmpR tmpG out h
    simp only [placeSessions, Option.some.injEq] at h
    exact ⟨[], by simp [← h, roomClaims, groupClaims], rfl,
      by simp [roomClaims], by simp [groupClaims],
      by simp [roomClaims], by simp [groupClaims]⟩
  | cons i rest ih =>
    intro acc tmpR tmpG out h
    simp only [placeSessions] at h
    cases hfind : (candidatePairs d (d.sessions.getD i default)).find? (fun jk =>
        noConflict occR tmpR occG tmpG (groupKey (d.sessions.getD i default))
          jk.1 (slotOccupation d i jk.2)) with
    | none => rw [hfind] at h; exact absurd h (by simp)
    | some jk =>
      obtain ⟨j, k⟩ := jk
      rw [hfind] at h
      obtain ⟨new2, hout, hmap, hrc, hgc, hrnd, hgnd⟩ := ih _ _ _ _ h
      have hpred := List.find?_some hfind
      have hnc := noConflict_spec hpred
      have hentryR :
          roomClaims d ((i, j, k) :: new2) =
            ((slotOccupation d i k).map fun slot => (j, slot)) ++
              roomClaims d new2 := by
        simp [roomClaims]
      have hentryG :
          groupClaims d ((i, j, k) :: new2) =
            ((slotOccupation d i k).map fun slot =>
              (groupKey (d.sessions.getD i default), slot)) ++
              groupClaims d new2 := by
        simp [groupClaims]
      refine ⟨(i, j, k) :: new2, ?_, ?_, ?_, ?_, ?_, ?_⟩
      · rw [hout, hentryR, hentryG]
        simp
      · simpa using hmap
      · rw [hentryR]
        intro c hc
        rcases List.mem_append.mp hc with hc | hc
        · obtain ⟨slot, hslot, rfl⟩ := List.mem_map.mp hc
          exact (hnc slot hslot).1
        · have h2 := hrc c hc
          refine ⟨h2.1, fun hmem => h2.2 (List.mem_append.mpr (Or.inl hmem))⟩
      · rw [hentryG]
        intro c hc
        rcases List.mem_append.mp hc with hc | hc
        · obtain ⟨slot, hslot, rfl⟩ := List.mem_map.mp hc
          exact (hnc slot hslot).2
        · have h2 := hgc c hc
          refine ⟨h2.1, fun hmem => h2.2 (List.mem_append.mpr (Or.inl hmem))⟩
      · rw [hentryR]
        rw [List.nodup_append]
        refine ⟨(slotOccupation_nodup d i k).map fun a b hab => by
            simpa using hab, hrnd, ?_⟩
        intro c hc1 hc2
        exact (hrc c hc2).2 (List.mem_append.mpr (Or.inr hc1))
      · rw [hentryG]
        rw [List.nodup_append]
        refine ⟨(slotOccupation_nodup d i k).map fun a b hab => by
            simpa using hab, hgnd, ?_⟩
        intro c hc1 hc2
        exact (hgc c hc2).2 (List.mem_append.mpr (Or.inr hc1))

/-- Membership in a pattern's session list. -/
theorem mem_sessionIdxs_iff {d : ModelData} {p i : Nat} :
    i ∈ sessionIdxs d p ↔ i < d.sessions.length ∧
      (d.sessions.getD i default).patternId = p := by
  simp [sessionIdxs, List.mem_filter]

/-- Membership in a component's pattern list. -/
theorem mem_patternIdxs_iff {d : ModelData} {c p : Nat} :
    p ∈ patternIdxs d c ↔ p < d.patternComponent.length ∧
      d.patternComponent.getD p 0 = c := by
  simp [patternIdxs, List.mem_filter]

/-- Claims distribute over appended key lists. -/
theorem roomClaims_append (d : ModelData) (l1 l2 : List (Nat × Nat × Nat)) :
    roomClaims d (l1 ++ l2) = roomClaims d l1 ++ roomClaims d l2 := by
  simp [roomClaims]

/-- Claims distribute over appended key lists. -/
theorem groupClaims_append (d : ModelData) (l1 l2 : List (Nat × Nat × Nat)) :
    groupClaims d (l1 ++ l2) = groupClaims d l1 ++ groupClaims d l2 := by
  simp [groupClaims]

/-- Trying the patterns of one fresh component preserves the invariant, and
any newly chosen pattern belongs to that component. -/
theorem tryPatterns_good (d : ModelData) (c : Nat) :
    ∀ (pats : List Nat) (st : GreedyState), GoodState d st →
      (∀ p ∈ pats, d.patternComponent.getD p 0 = c) →
      c ∉ (st.chosenY.map fun p => d.patternComponent.getD p 0) →
      GoodState d (tryPatterns d st pats) ∧
        ∀ q ∈ (tryPatterns d st pats).chosenY,
          q ∈ st.chosenY ∨ d.patternComponent.getD q 0 = c := by
  intro pats
  induction pats with
  | nil =>
    intro st hst _ _
    exact ⟨hst, fun q hq => Or.inl hq⟩
  | cons p rest ih =>
    intro st hst hpc hc
    simp only [tryPatterns]
    cases hps : placeSessions d st.occRoom st.occGroup (sessionIdxs d p) [] [] [] with
    | none =>
      exact ih st hst (fun q hq => hpc q (List.mem_cons_of_mem _ hq)) hc
    | some out =>
      obtain ⟨new, hout, hmap, hrc, hgc, hrnd, hgnd⟩ :=
        placeSessions_sound d _ _ _ _ _ _ _ hps
      simp only [List.nil_append] at hout
      subst hout
      obtain ⟨hR, hG, hRnd, hGnd, hXY, hYnd⟩ := hst
      constructor
      · refine ⟨?_, ?_, ?_, ?_, ?_, ?_⟩
        · show st.occRoom ++ roomClaims d new = roomClaims d (st.chosenX ++ new)
          rw [roomClaims_append, hR]
        · show st.occGroup ++ groupClaims d new = groupClaims d (st.chosenX ++ new)
          rw [groupClaims_append, hG]
        · show (roomClaims d (st.chosenX ++ new)).Nodup
          rw [roomClaims_append, List.nodup_append]
          refine ⟨hRnd, hrnd, fun x hx1 hx2 => ?_⟩
          exact (hrc x hx2).1 (hR ▸ hx1)
        · show (groupClaims d (st.chosenX ++ new)).Nodup
          rw [groupClaims_append, List.nodup_append]
          refine ⟨hGnd, hgnd, fun x hx1 hx2 => ?_⟩
          exact (hgc x hx2).1 (hG ▸ hx1)
        · show (st.chosenX ++ new).map (fun t => t.1) =
            (st.chosenY ++ [p]).flatMap (sessionIdxs d)
          rw [List.map_append, hXY, hmap]
          simp
        · show ((st.chosenY ++ [p]).map fun q =>
            d.patternComponent.getD q 0).Nodup
          rw [List.map_append, List.nodup_append]
          refine ⟨hYnd, by simp, fun x hx1 hx2 => ?_⟩
          simp only [List.map_cons, List.map_nil, List.mem_singleton] at hx2
          rw [hpc p (List.mem_cons_self _ _)] at hx2
          exact hc (hx2 ▸ hx1)
      · intro q hq
        simp only [List.mem_append, List.mem_singleton] at hq
        rcases hq with hq | rfl
        · exact Or.inl hq
        · exact Or.inr (hpc q (List.mem_cons_self _ _))

/-- Folding the heuristic over distinct fresh components preserves the
invariant. -/
theorem greedyFold_good (d : ModelData) :
    ∀ (cs : List Nat) (st : GreedyState), GoodState d st → cs.Nodup →
      (∀ p ∈ st.chosenY, d.patternComponent.getD p 0 ∉ cs) →
      GoodState d (cs.foldl (fun st c => tryPatterns d st (patternIdxs d c)) st) := by
  intro cs
  induction cs with
  | nil =>
    intro st hst _ _
    exact hst
  | cons c rest ih =>
    intro st hst hnd hcomp
    simp only [List.foldl_cons]
    have hc : c ∉ st.chosenY.map fun p => d.patternComponent.getD p 0 := by
      intro hmem
      obtain ⟨p, hp, hpc⟩ := List.mem_map.mp hmem
      exact hcomp p hp (hpc ▸ List.mem_cons_self _ _)
    obtain ⟨hgood, hsub⟩ := tryPatterns_good d c (patternIdxs d c) st hst
      (fun q hq => (mem_patternIdxs_iff.mp hq).2) hc
    refine ih _ hgood (List.Nodup.of_cons hnd) fun p hp => ?_
    rcases hsub p hp with hold | hcompeq
    · exact fun hmem => hcomp p hold (List.mem_cons_of_mem _ hmem)
    · rw [hcompeq]
      exact (List.nodup_cons.mp hnd).1

/-- In a duplicate-free list, at most one member equals any given value. -/
theorem nodup_countP_le_one {α : Type} [DecidableEq α] {l : List α}
    (h : l.Nodup) (y : α) : (l.countP fun c => decide (c = y)) ≤ 1 := by
  rw [List.countP_eq_length_filter]
  rcases hf : l.filter (fun c => decide (c = y)) with _ | ⟨x, xs⟩
  · simp
  · rcases xs with _ | ⟨z, zs⟩
    · simp
    · exfalso
      have hnd := h.filter (fun c => decide (c = y))
      rw [hf] at hnd
      have hx : x = y := by
        have hm : x ∈ l.filter (fun c => decide (c = y)) := by
          rw [hf]; exact List.mem_cons_self _ _
        simpa using (List.mem_filter.mp hm).2
      have hz : z = y := by
        have hm : z ∈ l.filter (fun c => decide (c = y)) := by
          rw [hf]; exact List.mem_cons_of_mem _ (List.mem_cons_self _ _)
        simpa using (List.mem_filter.mp hm).2
      rw [List.nodup_cons] at hnd
      exact hnd.1 (by rw [hx, hz]; exact List.mem_cons_self _ _)

/-- In a duplicate-free list, exactly one member equals any member. -/
theorem nodup_countP_eq_one {α : Type} [DecidableEq α] {l : List α}
    (h : l.Nodup) {y : α} (hy : y ∈ l) :
    (l.countP fun c => decide (c = y)) = 1 := by
  have hle := nodup_countP_le_one h y
  have hpos : 0 < l.countP fun c => decide (c = y) :=
    List.countP_pos_iff.mpr ⟨y, hy, by simp⟩
  omega

/-- Counting a pair in a constant-first-component map over distinct slots. -/
theorem countP_pair_map {α : Type} [DecidableEq α] (x0 : α) (slots : List Nat)
    (hnd : slots.Nodup) (x : α) (slot : Nat) :
    ((slots.map fun s => (x0, s)).countP fun c => decide (c = (x, slot))) =
      if x0 = x ∧ slot ∈ slots then 1 else 0 := by
  induction slots with
  | nil => simp
  | cons s ss ih =>
    have ihs := ih (List.nodup_cons.mp hnd).2
    rw [List.map_cons, List.countP_cons, ihs]
    by_cases hx : x0 = x
    · subst hx
      by_cases hslot : slot = s
      · subst hslot
        have hout : slot ∉ ss := (List.nodup_cons.mp hnd).1
        simp [hout]
      · have hss : ¬ s = slot := fun h => hslot h.symm
        simp only [List.mem_cons]
        by_cases hmem : slot ∈ ss <;> simp [hmem, hslot, hss]
    · have hne : ¬ ((x0, s) = (x, slot)) := by simp [hx]
      simp only [List.mem_cons]
      by_cases hmem : slot ∈ ss <;> simp [hx, hne, hmem]

/-- Occurrences of a claim in the room claims count the covering keys. -/
theorem count_roomClaims (d : ModelData) (l : List (Nat × Nat × Nat))
    (j slot : Nat) :
    ((roomClaims d l).countP fun c => decide (c = (j, slot))) =
      (l.filter fun t => t.2.1 = j ∧ slot ∈ slotOccupation d t.1 t.2.2).length := by
  induction l with
  | nil => simp [roomClaims]
  | cons t ts ih =>
    have hsplit : roomClaims d (t :: ts) =
        ((slotOccupation d t.1 t.2.2).map fun s => (t.2.1, s)) ++ roomClaims d ts := by
      simp [roomClaims]
    rw [hsplit, List.countP_append, ih,
      countP_pair_map t.2.1 _ (slotOccupation_nodup d t.1 t.2.2) j slot,
      List.filter_cons]
    by_cases hcov : t.2.1 = j ∧ slot ∈ slotOccupation d t.1 t.2.2
    · simp [hcov]
      omega
    · simp [hcov]

/-- Occurrences of a claim in the group claims count the covering keys. -/
theorem count_groupClaims (d : ModelData) (l : List (Nat × Nat × Nat))
    (g : String × Nat × String) (slot : Nat) :
    ((groupClaims d l).countP fun c => decide (c = (g, slot))) =
      (l.filter fun t => groupKey (d.sessions.getD t.1 default) = g ∧
        slot ∈ slotOccupation d t.1 t.2.2).length := by
  induction l with
  | nil => simp [groupClaims]
  | cons t ts ih =>
    have hsplit : groupClaims d (t :: ts) =
        ((slotOccupation d t.1 t.2.2).map fun s =>
          (groupKey (d.sessions.getD t.1 default), s)) ++ groupClaims d ts := by
      simp [groupClaims]
    rw [hsplit, List.countP_append, ih,
      countP_pair_map _ _ (slotOccupation_nodup d t.1 t.2.2) g slot,
      List.filter_cons]
    by_cases hcov : groupKey (d.sessions.getD t.1 default) = g ∧
        slot ∈ slotOccupation d t.1 t.2.2
    · rw [if_pos hcov, if_pos (by simpa using hcov)]
      simp only [List.length_cons]
      omega
    · rw [if_neg hcov, if_neg (by simpa using hcov)]
      omega

/-- Keys of one session in a key list, as a count over the session ids. -/
theorem filter_fst_length (l : List (Nat × Nat × Nat)) (i : Nat) :
    (l.filter fun t => t.1 = i).length =
      ((l.map fun t => t.1).countP fun q => decide (q = i)) := by
  induction l with
  | nil => simp
  | cons t ts ih =>
    rw [List.filter_cons, List.map_cons, List.countP_cons]
    by_cases h : t.1 = i <;> simp [h, ih]

/-- Session occurrences in the sessions of a pattern list, as a predicate
count. -/
theorem count_flatMap_sessionIdxs (d : ModelData) (Y : List Nat) (i : Nat) :
    ((Y.flatMap (sessionIdxs d)).countP fun q => decide (q = i)) =
      Y.countP fun q => decide (i ∈ sessionIdxs d q) := by
  induction Y with
  | nil => simp
  | cons q qs ih =>
    rw [List.flatMap_cons, List.countP_append, ih, List.countP_cons]
    have hnd : (sessionIdxs d q).Nodup := (List.nodup_range _).filter _
    by_cases hmem : i ∈ sessionIdxs d q
    · rw [nodup_countP_eq_one hnd hmem]
      simp [hmem]
      omega
    · have hz : ((sessionIdxs d q).countP fun x => decide (x = i)) = 0 :=
        List.countP_eq_zero.mpr fun x hx => by
          simp only [decide_eq_true_eq]
          intro hxi
          exact hmem (hxi ▸ hx)
      rw [hz]
      simp [hmem]

/-- C9: the greedy warm-start heuristic processes the components in ascending
available-pattern order, commits patterns all-or-none (a chosen pattern has
every session placed exactly once, an unchosen pattern none), and produces a
conflict-free assignment: no (room, slot) pair and no (cohort, slot) pair is
ever claimed twice. -/
theorem greedy_warm_start (d : ModelData) :
    ((greedyOrder d).Pairwise (greedyLE d)) ∧
    (∀ p ∈ (generateInitialSolution d).chosenY, ∀ i ∈ sessionIdxs d p,
      ((generateInitialSolution d).chosenX.filter fun t => t.1 = i).length = 1) ∧
    (∀ p : Nat, p ∉ (generateInitialSolution d).chosenY →
      ∀ i ∈ sessionIdxs d p,
        ((generateInitialSolution d).chosenX.filter fun t => t.1 = i).length = 0) ∧
    (∀ j slot, ((generateInitialSolution d).chosenX.filter fun t =>
      t.2.1 = j ∧ slot ∈ slotOccupation d t.1 t.2.2).length ≤ 1) ∧
    (∀ g slot, ((generateInitialSolution d).chosenX.filter fun t =>
      groupKey (d.sessions.getD t.1 default) = g ∧
        slot ∈ slotOccupation d t.1 t.2.2).length ≤ 1) := by
  have hnodup : (greedyOrder d).Nodup :=
    ((List.perm_insertionSort (greedyLE d) _).nodup_iff).mpr (List.nodup_range _)
  have hgood : GoodState d (generateInitialSolution d) :=
    greedyFold_good d (greedyOrder d) ⟨[], [], [], []⟩
      ⟨rfl, rfl, List.nodup_nil, List.nodup_nil, rfl, List.nodup_nil⟩
      hnodup (by simp)
  obtain ⟨-, -, hRnd, hGnd, hXY, hYcompnd⟩ := hgood
  have hYnd : (generateInitialSolution d).chosenY.Nodup :=
    hYcompnd.of_map
  refine ⟨List.sorted_insertionSort _ _, ?_, ?_, ?_, ?_⟩
  · intro p hp i hi
    rw [filter_fst_length, hXY, count_flatMap_sessionIdxs]
    have hkey : ∀ q ∈ (generateInitialSolution d).chosenY,
        (decide (i ∈ sessionIdxs d q)) = true ↔ (decide (q = p)) = true := by
      intro q hq
      by_cases hqp : q = p
      · simp [hqp, hi]
      · have hni : i ∉ sessionIdxs d q := by
          intro hmem
          exact hqp ((mem_sessionIdxs_iff.mp hmem).2.symm.trans
            (mem_sessionIdxs_iff.mp hi).2)
        simp [hni, hqp]
    rw [List.countP_congr hkey]
    exact nodup_countP_eq_one hYnd hp
  · intro p hnp i hi
    rw [filter_fst_length, hXY, count_flatMap_sessionIdxs]
    apply List.countP_eq_zero.mpr
    intro q hq
    simp only [decide_eq_true_eq]
    intro hmem
    have hqp : q = p := (mem_sessionIdxs_iff.mp hmem).2.symm.trans
      (mem_sessionIdxs_iff.mp hi).2
    exact hnp (hqp ▸ hq)
  · intro j slot
    rw [← count_roomClaims]
    exact nodup_countP_le_one hRnd (j, slot)
  · intro g slot
    rw [← count_groupClaims]
    exact nodup_countP_le_one hGnd (g, slot)

/-! ## Warm-start installation (`solve` and `solve_progressive`) -/

/-- The initial values handed to the external solver: PuLP's
`setInitialValue` state of each variable, `none` when never set. -/
structure WarmStart where
  yInit : Nat → Option Nat
  xInit : Nat × Nat × Nat → Option Nat

/-- Embedding of the warm-start step of `solve`: the greedy heuristic is
invoked (`self._generate_initial_solution()`), but its returned solution is
discarded — `solve` never calls `setInitialValue` — so every variable reaches
the solver with no initial value. -/
def solveWarmStart (d : ModelData) : WarmStart :=
  let _ := generateInitialSolution d
  { yInit := fun _ => none, xInit := fun _ => none }

/-- Embedding of the warm-start step of the first `solve_progressive`
iteration: the heuristic's solution is installed, `setInitialValue(1)` on
every pattern and assignment variable it chose (`if self.Y.get(p_id)` always
holds for chosen patterns, whose variables all exist before preprocessing). -/
def progressiveWarmStart (d : ModelData) : WarmStart :=
  let ws := generateInitialSolution d
  { yInit := fun p => if p ∈ ws.chosenY then some 1 else none
    xInit := fun t => if t ∈ ws.chosenX then some 1 else none }

/-- C10 (code bug): on the sample instance the heuristic does choose pattern 0,
and `solve_progressive` installs it as an incumbent, but `solve` hands the
solver a model with no initial values at all — the heuristic's solution is
computed and dropped. -/
theorem solve_discards_warm_start :
    0 ∈ (generateInitialSolution sampleData).chosenY ∧
      (progressiveWarmStart sampleData).yInit 0 = some 1 ∧
      (solveWarmStart sampleData).yInit 0 = none ∧
      (∀ p, (solveWarmStart sampleData).yInit p = none) ∧
      (∀ t, (solveWarmStart sampleData).xInit t = none) := by
  refine ⟨by decide, by decide, rfl, fun _ => rfl, fun _ => rfl⟩

/-! ## Decomposition strategies (`solve_hierarchical` in `scheduler.py`,
`solve_large_dataset` in `scheduler_large_dataset.py`,
`ProgramSequentialScheduler.solve_all_programs` in
`scheduler_program_sequential.py`)

The per-slice model build and external solver call are abstracted as an
oracle: `none` models a failed solve (not optimal / no usable objective /
`success = False`), `some` a successful one. -/

/-- Tier loop of `solve_hierarchical`: each priority tier is solved in order;
on success its scheduled components accumulate (and their variables get
initial values); on failure `all_succeeded` is cleared and the loop continues
("Continue to next priority group anyway").  The final status is optimal only
when every tier succeeded. -/
def solveHierarchical (solveTier : List Nat → Option (List Nat)) :
    List (List Nat) → List Nat → Bool → List Nat × Bool
  | [], scheduled, allOk => (scheduled, allOk)
  | tier :: rest, scheduled, allOk =>
    match solveTier tier with
    | some comps => solveHierarchical solveTier rest (scheduled ++ comps) allOk
    | none => solveHierarchical solveTier rest scheduled false

/-- Year loop of `solve_large_dataset` (state `σ` is the occupied-room-slot
set, threaded only through successful years): a failed year is only printed
and the loop continues; the returned `all_solutions` holds the successful
years. -/
def solveLargeDataset {σ α : Type} (solveYear : Nat → σ → Option (α × σ)) :
    List Nat → σ → List (Nat × α)
  | [], _ => []
  | yr :: rest, occ =>
    match solveYear yr occ with
    | some (sol, occ2) => (yr, sol) :: solveLargeDataset solveYear rest occ2
    | none => solveLargeDataset solveYear rest occ

/-- Program loop of `solve_all_programs`: on the first failed program the
method returns `(False, {'error': 'Failed to solve <program>'})` immediately,
without attempting the remaining programs (earlier programs' schedules remain
only in the scheduler object's state, not in the return value). -/
def solveAllPrograms {σ α : Type} (solveProg : String → σ → Option (α × σ)) :
    List String → σ → List α → Bool × Except String (List α)
  | [], _, acc => (true, Except.ok acc)
  | prog :: rest, occ, acc =>
    match solveProg prog occ with
    | none => (false, Except.error ("Failed to solve " ++ prog))
    | some (sched, occ2) => solveAllPrograms solveProg rest occ2 (acc ++ [sched])

/-- A concrete two-program scenario: program "IT" fails, program "IS" would
succeed. -/
def twoProgOracle : String → Unit → Option (Nat × Unit) := fun p _ =>
  if p = "IT" then none else some (1, ())

/-- Counterexample to C7 as stated: in the program-sliced strategy, the
failure of the first program ends the whole run with a lone error naming it —
the remaining program, although solvable, is never attempted and no per-slice
schedule set is produced. -/
theorem program_sequential_aborts :
    solveAllPrograms twoProgOracle ["IT", "IS"] () [] =
        (false, Except.error "Failed to solve IT") ∧
      twoProgOracle "IS" () = some (1, ()) := by
  exact ⟨rfl, rfl⟩

/-- C7 (amended): the hierarchical strategy accumulates every successful
tier's components and is optimal iff all tiers succeeded (slice failures are
recorded in the cleared flag and do not stop the run); a failed year in the
year-sliced strategy contributes nothing and the run continues on the
remaining years unchanged; the program-sliced strategy instead stops at the
first failed program, returning only an error naming it. -/
theorem decomposition_failure_handling :
    (∀ (g : List Nat → Option (List Nat)) (tiers : List (List Nat))
        (sched : List Nat) (ok : Bool),
      solveHierarchical g tiers sched ok =
        (sched ++ (tiers.filterMap g).flatten,
          ok && tiers.all fun t => (g t).isSome)) ∧
    (∀ {σ α : Type} (f : Nat → σ → Option (α × σ)) (yr : Nat)
        (rest : List Nat) (occ : σ), f yr occ = none →
      solveLargeDataset f (yr :: rest) occ = solveLargeDataset f rest occ) ∧
    (∀ {σ α : Type} (f : String → σ → Option (α × σ)) (prog : String)
        (rest : List String) (occ : σ) (acc : List α), f prog occ = none →
      solveAllPrograms f (prog :: rest) occ acc =
        (false, Except.error ("Failed to solve " ++ prog))) := by
  refine ⟨?_, ?_, ?_⟩
  · intro g tiers
    induction tiers with
    | nil => intro sched ok; simp [solveHierarchical]
    | cons tier rest ih =>
      intro sched ok
      simp only [solveHierarchical]
      cases hg : g tier with
      | some comps => simp [hg, ih]
      | none => simp [hg, ih]
  · intro σ α f yr rest occ hfail
    simp [solveLargeDataset, hfail]
  · intro σ α f prog rest occ acc hfail
    simp [solveAllPrograms, hfail]

/-- Witness for `decomposition_failure_handling`, discharging its hypotheses
on the concrete two-program scenario and a one-tier hierarchical run. -/
theorem decomposition_failure_handling_witness :
    twoProgOracle "IT" () = none ∧
      solveHierarchical (fun t => some t) [[0, 1]] [] true = ([0, 1], true) ∧
      solveLargeDataset (fun yr (occ : Unit) =>
          if yr = 1 then none else some (yr, occ)) [1, 2] () = [(2, 2)] ∧
      solveAllPrograms twoProgOracle ["IT", "IS"] () [] =
        (false, Except.error ("Failed to solve " ++ "IT")) := by
  refine ⟨rfl, ?_, rfl, ?_⟩
  · have h := decomposition_failure_handling.1 (fun t => some t) [[0, 1]] [] true
    simpa using h
  · exact decomposition_failure_handling.2.2 twoProgOracle "IT" ["IS"] () [] rfl

/-! ## Schedule export and run reporting (`export_schedule`, `solve`) -/

/-- Solver statuses as `solve` reports them (`pl.LpStatus[status]`): a bare
enum carrying no component identity. -/
inductive SolveStatus where
  | optimal | notSolved | infeasible | unbounded | undefined
  deriving Repr, DecidableEq

/-- The component ids of the schedule rows `export_schedule` produces: the
components of the `X = 1` assignments, in first-appearance order
(`component_schedules` keyed by `component_id`).  When the model has no
objective value (`pl.value(...) is None`, a failed solve) the export returns
an empty frame. -/
def exportComponents (d : ModelData) (sol : Option (Nat × Nat × Nat → Bool)) :
    List Nat :=
  match sol with
  | none => []
  | some a =>
    ((xKeys d).filter fun t => a t).foldl
      (fun acc t =>
        let cid := (d.sessions.getD t.1 default).componentId
        if cid ∈ acc then acc else acc ++ [cid]) []

/-- Everything a `solve`-plus-export run shows the user: the bare solver
status (the `solve` method prints only the status and aggregate utilization
metrics, lines 1408-1456) and the exported rows' components.  The code has no
output channel that names an unscheduled component. -/
def runOutputs (d : ModelData) (status : SolveStatus)
    (sol : Option (Nat × Nat × Nat → Bool)) : SolveStatus × List Nat :=
  (status, exportComponents d sol)

/-- Counterexample to C8 as stated: on the one-component sample instance, a
failed solve ends the run with a bare infeasible status and an empty schedule
— component 0 is neither scheduled nor named anywhere in the run's outputs;
it is silently dropped. -/
theorem unscheduled_component_unreported :
    sampleData.numComponents = 1 ∧
      runOutputs sampleData SolveStatus.infeasible none =
        (SolveStatus.infeasible, []) ∧
      0 ∉ (runOutputs sampleData SolveStatus.infeasible none).2 := by
  exact ⟨rfl, rfl, by decide⟩

/-- Membership after a duplicate-skipping fold. -/
theorem mem_dedup_foldl {α β : Type} [DecidableEq α] (f : β → α) :
    ∀ (l : List β) (acc : List α) (c : α),
      (c ∈ l.foldl (fun acc t => if f t ∈ acc then acc else acc ++ [f t]) acc ↔
        c ∈ acc ∨ ∃ t ∈ l, f t = c) := by
  intro l
  induction l with
  | nil => intro acc c; simp
  | cons t ts ih =>
    intro acc c
    simp only [List.foldl_cons]
    rw [ih]
    by_cases hmem : f t ∈ acc
    · rw [if_pos hmem]
      constructor
      · rintro (hc | ⟨u, hu, hfu⟩)
        · exact Or.inl hc
        · exact Or.inr ⟨u, List.mem_cons_of_mem _ hu, hfu⟩
      · rintro (hc | ⟨u, hu, hfu⟩)
        · exact Or.inl hc
        · rcases List.mem_cons.mp hu with rfl | hu2
          · exact Or.inl (hfu ▸ hmem)
          · exact Or.inr ⟨u, hu2, hfu⟩
    · rw [if_neg hmem]
      constructor
      · rintro (hc | ⟨u, hu, hfu⟩)
        · rcases List.mem_append.mp hc with hc | hc
          · exact Or.inl hc
          · exact Or.inr ⟨t, List.mem_cons_self _ _,
              (List.mem_singleton.mp hc).symm⟩
        · exact Or.inr ⟨u, List.mem_cons_of_mem _ hu, hfu⟩
      · rintro (hc | ⟨u, hu, hfu⟩)
        · exact Or.inl (List.mem_append.mpr (Or.inl hc))
        · rcases List.mem_cons.mp hu with rfl | hu2
          · exact Or.inl (List.mem_append.mpr (Or.inr (by simp [hfu])))
          · exact Or.inr ⟨u, hu2, hfu⟩

/-- C8 (amended): the run's outputs contain a component exactly when the
solution assigns one of its sessions; a failed solve exports nothing.  There
is no per-component unscheduled report — a component without assignments is
simply absent from every output of the run. -/
theorem export_exactly_assigned (d : ModelData)
    (a : Nat × Nat × Nat → Bool) (c : Nat) :
    (c ∈ (runOutputs d SolveStatus.optimal (some a)).2 ↔
      ∃ t ∈ xKeys d, a t = true ∧
        (d.sessions.getD t.1 default).componentId = c) ∧
    ∀ status : SolveStatus, (runOutputs d status none).2 = [] := by
  constructor
  · have h := mem_dedup_foldl (fun t : Nat × Nat × Nat =>
      (d.sessions.getD t.1 default).componentId)
      ((xKeys d).filter fun t => a t) [] c
    have h2 : c ∈ (runOutputs d SolveStatus.optimal (some a)).2 ↔
        ∃ u, (u ∈ xKeys d ∧ a u = true) ∧
          (d.sessions.getD u.1 default).componentId = c := by
      simpa [runOutputs, exportComponents, List.mem_filter] using h
    rw [h2]
    constructor
    · rintro ⟨u, ⟨hux, hua⟩, huc⟩
      exact ⟨u, hux, hua, huc⟩
    · rintro ⟨u, hux, hua, huc⟩
      exact ⟨u, ⟨hux, hua⟩, huc⟩
  · intro status
    rfl

/-- Witness for `export_exactly_assigned` on the sample instance: component 0
is exported exactly because its session 0 is assigned. -/
theorem export_exactly_assigned_witness :
    ((0 ∈ (runOutputs sampleData SolveStatus.optimal (some sampleA)).2 ↔
      ∃ t ∈ xKeys sampleData, sampleA t = true ∧
        (sampleData.sessions.getD t.1 default).componentId = 0) ∧
      ∀ status : SolveStatus, (runOutputs sampleData status none).2 = []) ∧
      0 ∈ (runOutputs sampleData SolveStatus.optimal (some sampleA)).2 := by
  refine ⟨export_exactly_assigned sampleData sampleA 0, by decide⟩

end Scheduler
